import Mathlib

/-!
# Dining philosophers (`Filozofowie.cpp`): step-relation model and its properties

The three classes `DeadlockVersion`, `StarvationVersion` and `CorrectVersion` of
`Filozofowie.cpp` each override `philosophize(int id)`.  Five threads run it, one per
philosopher.  Every statement of `philosophize` is one atomic step of the thread that
executes it; a program counter per thread (named after the source line) records the
statement the thread executes next.

* a `std::mutex` is `Option (Fin 5)`: `none` is free, `some a` is owned by thread `a`;
  `lock()` can only be executed on a free mutex (otherwise the thread has no step),
  `try_lock()` succeeds exactly on a free mutex, `unlock()` frees the mutex;
* `display_status(id)` (lines 33-83) is two steps: the `lock_guard` taking
  `display_mutex` (line 34), and the rendering that ends with the guard's release
  (lines 35-83); rendering only reads the shared data;
* a `lock_guard` block is one step for the guard, one per assignment, one for the
  closing brace that releases the guard;
* `sleep_for` and `continue` are steps that change nothing but the program counter;
* `running` is never assigned in the source; it is part of the state and no step
  writes it;
* `meals_eaten` is a `vector<int>`: its entries are `Int`, and `meals_eaten[id]++` is
  `intIncrement`, the increment of a 32-bit `int`, which wraps from `INT_MAX` to `INT_MIN`.

The definitions come first: the state, the three step functions, the program points by
role (`Layout`) with the invariant they support, and the notions and concrete schedules the
statements use.  The theorems follow: the invariant and its consequences, enabledness,
executions of `CorrectVersion` under a scheduler, and finally the claims `C1`-`C10`.
-/

namespace Filozofowie

/-- Line 13: `const int NUM_PHILOSOPHERS = 5;`. -/
abbrev NUM_PHILOSOPHERS : Nat := 5

/-- Line 17: `enum class PhilosopherState { THINKING, HUNGRY, EATING };`. -/
inductive PhilosopherState where
  | THINKING
  | HUNGRY
  | EATING
  deriving DecidableEq, Repr

/-- A `vector<T>` of `NUM_PHILOSOPHERS` elements (lines 87-91), indexed by `Fin 5`. -/
structure Vec5 (α : Type) where
  x0 : α
  x1 : α
  x2 : α
  x3 : α
  x4 : α
  deriving DecidableEq, Repr

namespace Vec5

/-- The constructor `vector<T>(NUM_PHILOSOPHERS, a)`. -/
def replicate {α : Type} (a : α) : Vec5 α := ⟨a, a, a, a, a⟩

/-- Read `v[i]`. -/
def get {α : Type} (v : Vec5 α) (i : Fin NUM_PHILOSOPHERS) : α :=
  match i with
  | ⟨0, _⟩ => v.x0
  | ⟨1, _⟩ => v.x1
  | ⟨2, _⟩ => v.x2
  | ⟨3, _⟩ => v.x3
  | ⟨_ + 4, _⟩ => v.x4

/-- Write `v[i] = a`. -/
def set {α : Type} (v : Vec5 α) (i : Fin NUM_PHILOSOPHERS) (a : α) : Vec5 α :=
  match i with
  | ⟨0, _⟩ => { v with x0 := a }
  | ⟨1, _⟩ => { v with x1 := a }
  | ⟨2, _⟩ => { v with x2 := a }
  | ⟨3, _⟩ => { v with x3 := a }
  | ⟨_ + 4, _⟩ => { v with x4 := a }

end Vec5

/-- Line 118 (168, 253): `int left = id;`. -/
def left (id : Fin NUM_PHILOSOPHERS) : Fin NUM_PHILOSOPHERS := id

/-- Line 119 (169, 254): `int right = (id + 1) % NUM_PHILOSOPHERS;`. -/
def right (id : Fin NUM_PHILOSOPHERS) : Fin NUM_PHILOSOPHERS :=
  ⟨(id.val + 1) % NUM_PHILOSOPHERS, Nat.mod_lt _ (by decide)⟩

/-- The largest `int`: `2^31 - 1`. -/
def INT_MAX : Int := 2147483647

/-- The smallest `int`: `-2^31`. -/
def INT_MIN : Int := -2147483648

/-- The statement `x++` on a 32-bit `int` (lines 142, 224, 276): `x + 1`, wrapping from
`INT_MAX` to `INT_MIN`. -/
def intIncrement (x : Int) : Int := (x + 1 + 2147483648) % 4294967296 - 2147483648

/-- The shared data of `DiningPhilosophers` (lines 21-26), the flag `running` (line 14),
the member `arbitrator` of `CorrectVersion` (line 249; the other two classes have no such
member and their steps never touch it), and the program counter of each of the five
threads started by `run` (lines 100-103). -/
structure State (PC : Type) where
  running : Bool
  states : Vec5 PhilosopherState
  meals_eaten : Vec5 Int
  chopsticks : Vec5 (Option (Fin NUM_PHILOSOPHERS))
  current_chopstick_users : Vec5 Int
  last_chopstick_users : Vec5 Int
  display_mutex : Option (Fin NUM_PHILOSOPHERS)
  arbitrator : Option (Fin NUM_PHILOSOPHERS)
  pc : Vec5 PC
  deriving DecidableEq

/-- The state built by the constructor (lines 86-94) with `running(true)` (line 14), all
mutexes free, and every thread at the statement `start`. -/
def State.initial {PC : Type} (start : PC) : State PC where
  running := true
  states := Vec5.replicate PhilosopherState.THINKING
  meals_eaten := Vec5.replicate 0
  chopsticks := Vec5.replicate none
  current_chopstick_users := Vec5.replicate (-1)
  last_chopstick_users := Vec5.replicate (-1)
  display_mutex := none
  arbitrator := none
  pc := Vec5.replicate start

/-- Run a schedule: the listed threads take one step each, in order; the result is `none`
when a listed thread has no step (it is blocked or has returned). -/
def runSchedule {PC : Type} (step : Fin NUM_PHILOSOPHERS → State PC → Option (State PC)) :
    List (Fin NUM_PHILOSOPHERS) → State PC → Option (State PC)
  | [], s => some s
  | i :: rest, s =>
    match step i s with
    | some s' => runSchedule step rest s'
    | none => none

/-- The states reached from `init` by finitely many steps of the threads. -/
inductive Reachable {PC : Type} (step : Fin NUM_PHILOSOPHERS → State PC → Option (State PC))
    (init : State PC) : State PC → Prop where
  | init : Reachable step init init
  | step {s s' : State PC} (i : Fin NUM_PHILOSOPHERS) :
      Reachable step init s → step i s = some s' → Reachable step init s'

/-! ## `DeadlockVersion` (lines 115-163) -/

namespace DeadlockVersion

/-- The statements of `DeadlockVersion::philosophize`, named by source line.  A name ending
in `r` is the body of `display_status` (lines 35-83) entered from that line, holding the
guard of line 34; `L162` is the end of the function. -/
inductive PC where
  | L121 | L122 | L123 | L123r | L125 | L127 | L128 | L129 | L130 | L131 | L131r | L132 | L134
  | L136 | L137 | L138 | L139 | L141 | L142 | L143 | L143r | L145 | L148 | L149 | L150 | L151
  | L152 | L153 | L154 | L155 | L157 | L158 | L158r | L160 | L162
  deriving DecidableEq, Repr

open PC PhilosopherState in
/-- One step of thread `id` in `DeadlockVersion::philosophize`. -/
def philosophize (id : Fin NUM_PHILOSOPHERS) (s : State PC) : Option (State PC) :=
  match s.pc.get id with
  -- 121: while (running) {
  | L121 => some { s with pc := s.pc.set id (if s.running then L122 else L162) }
  -- 122: states[id] = PhilosopherState::HUNGRY;
  | L122 => some { s with states := s.states.set id HUNGRY, pc := s.pc.set id L123 }
  -- 123: display_status(id);
  | L123 =>
    if s.display_mutex = none then
      some { s with display_mutex := some id, pc := s.pc.set id L123r }
    else none
  -- 123: (in display_status, lines 35-83: render, release the guard)
  | L123r => some { s with display_mutex := none, pc := s.pc.set id L125 }
  -- 125: chopsticks[left].lock();
  | L125 =>
    if s.chopsticks.get (left id) = none then
      some { s with
        chopsticks := s.chopsticks.set (left id) (some id), pc := s.pc.set id L127 }
    else none
  -- 127: lock_guard<mutex> lock(display_mutex);
  | L127 =>
    if s.display_mutex = none then
      some { s with display_mutex := some id, pc := s.pc.set id L128 }
    else none
  -- 128: last_chopstick_users[left] = current_chopstick_users[left];
  | L128 =>
    some { s with
      last_chopstick_users :=
        s.last_chopstick_users.set (left id) (s.current_chopstick_users.get (left id)),
      pc := s.pc.set id L129 }
  -- 129: current_chopstick_users[left] = id;
  | L129 =>
    some { s with
      current_chopstick_users := s.current_chopstick_users.set (left id) (id.val : Int),
      pc := s.pc.set id L130 }
  -- 130: }
  | L130 => some { s with display_mutex := none, pc := s.pc.set id L131 }
  -- 131: display_status(id);
  | L131 =>
    if s.display_mutex = none then
      some { s with display_mutex := some id, pc := s.pc.set id L131r }
    else none
  -- 131: (in display_status, lines 35-83: render, release the guard)
  | L131r => some { s with display_mutex := none, pc := s.pc.set id L132 }
  -- 132: this_thread::sleep_for(chrono::milliseconds(100));
  | L132 => some { s with pc := s.pc.set id L134 }
  -- 134: chopsticks[right].lock();
  | L134 =>
    if s.chopsticks.get (right id) = none then
      some { s with
        chopsticks := s.chopsticks.set (right id) (some id), pc := s.pc.set id L136 }
    else none
  -- 136: lock_guard<mutex> lock(display_mutex);
  | L136 =>
    if s.display_mutex = none then
      some { s with display_mutex := some id, pc := s.pc.set id L137 }
    else none
  -- 137: last_chopstick_users[right] = current_chopstick_users[right];
  | L137 =>
    some { s with
      last_chopstick_users :=
        s.last_chopstick_users.set (right id) (s.current_chopstick_users.get (right id)),
      pc := s.pc.set id L138 }
  -- 138: current_chopstick_users[right] = id;
  | L138 =>
    some { s with
      current_chopstick_users := s.current_chopstick_users.set (right id) (id.val : Int),
      pc := s.pc.set id L139 }
  -- 139: }
  | L139 => some { s with display_mutex := none, pc := s.pc.set id L141 }
  -- 141: states[id] = PhilosopherState::EATING;
  | L141 => some { s with states := s.states.set id EATING, pc := s.pc.set id L142 }
  -- 142: meals_eaten[id]++;
  | L142 =>
    some { s with
      meals_eaten := s.meals_eaten.set id (intIncrement (s.meals_eaten.get id)),
      pc := s.pc.set id L143 }
  -- 143: display_status(id);
  | L143 =>
    if s.display_mutex = none then
      some { s with display_mutex := some id, pc := s.pc.set id L143r }
    else none
  -- 143: (in display_status, lines 35-83: render, release the guard)
  | L143r => some { s with display_mutex := none, pc := s.pc.set id L145 }
  -- 145: this_thread::sleep_for(chrono::seconds(eat_dist(gen)));
  | L145 => some { s with pc := s.pc.set id L148 }
  -- 148: lock_guard<mutex> lock(display_mutex);
  | L148 =>
    if s.display_mutex = none then
      some { s with display_mutex := some id, pc := s.pc.set id L149 }
    else none
  -- 149: last_chopstick_users[left] = current_chopstick_users[left];
  | L149 =>
    some { s with
      last_chopstick_users :=
        s.last_chopstick_users.set (left id) (s.current_chopstick_users.get (left id)),
      pc := s.pc.set id L150 }
  -- 150: current_chopstick_users[left] = -1;
  | L150 =>
    some { s with
      current_chopstick_users := s.current_chopstick_users.set (left id) (-1),
      pc := s.pc.set id L151 }
  -- 151: last_chopstick_users[right] = current_chopstick_users[right];
  | L151 =>
    some { s with
      last_chopstick_users :=
        s.last_chopstick_users.set (right id) (s.current_chopstick_users.get (right id)),
      pc := s.pc.set id L152 }
  -- 152: current_chopstick_users[right] = -1;
  | L152 =>
    some { s with
      current_chopstick_users := s.current_chopstick_users.set (right id) (-1),
      pc := s.pc.set id L153 }
  -- 153: }
  | L153 => some { s with display_mutex := none, pc := s.pc.set id L154 }
  -- 154: chopsticks[left].unlock();
  | L154 =>
    some { s with chopsticks := s.chopsticks.set (left id) none, pc := s.pc.set id L155 }
  -- 155: chopsticks[right].unlock();
  | L155 =>
    some { s with chopsticks := s.chopsticks.set (right id) none, pc := s.pc.set id L157 }
  -- 157: states[id] = PhilosopherState::THINKING;
  | L157 => some { s with states := s.states.set id THINKING, pc := s.pc.set id L158 }
  -- 158: display_status(id);
  | L158 =>
    if s.display_mutex = none then
      some { s with display_mutex := some id, pc := s.pc.set id L158r }
    else none
  -- 158: (in display_status, lines 35-83: render, release the guard)
  | L158r => some { s with display_mutex := none, pc := s.pc.set id L160 }
  -- 160: this_thread::sleep_for(chrono::seconds(think_dist(gen)));
  | L160 => some { s with pc := s.pc.set id L121 }
  -- 162: } (the function has returned)
  | L162 => none

/-- All threads at the loop test of line 121, nothing held. -/
def init : State PC := State.initial PC.L121

end DeadlockVersion

/-! ## `StarvationVersion` (lines 165-245) -/

namespace StarvationVersion

/-- The statements of `StarvationVersion::philosophize`, named by source line.  A name ending
in `r` is the body of `display_status` (lines 35-83) entered from that line, holding the
guard of line 34; `L244` is the end of the function. -/
inductive PC where
  | L171 | L172 | L173 | L173r | L175 | L176 | L177 | L178 | L182 | L183 | L184 | L185 | L187
  | L188 | L189 | L191 | L192 | L193 | L194 | L195 | L196 | L200 | L201 | L202 | L203 | L206
  | L208 | L209 | L210 | L211 | L213 | L215 | L217 | L218 | L219 | L220 | L223 | L224 | L225
  | L225r | L227 | L230 | L231 | L232 | L233 | L234 | L235 | L236 | L237 | L239 | L240 | L240r
  | L242 | L244
  deriving DecidableEq, Repr

open PC PhilosopherState in
/-- One step of thread `id` in `StarvationVersion::philosophize`. -/
def philosophize (id : Fin NUM_PHILOSOPHERS) (s : State PC) : Option (State PC) :=
  match s.pc.get id with
  -- 171: while (running) {
  | L171 => some { s with pc := s.pc.set id (if s.running then L172 else L244) }
  -- 172: states[id] = PhilosopherState::HUNGRY;
  | L172 => some { s with states := s.states.set id HUNGRY, pc := s.pc.set id L173 }
  -- 173: display_status(id);
  | L173 =>
    if s.display_mutex = none then
      some { s with display_mutex := some id, pc := s.pc.set id L173r }
    else none
  -- 173: (in display_status, lines 35-83: render, release the guard)
  | L173r => some { s with display_mutex := none, pc := s.pc.set id L175 }
  -- 175: if (id == 0) {
  | L175 => some { s with pc := s.pc.set id (if id = 0 then L176 else L206) }
  -- 176: if (!chopsticks[right].try_lock()) {
  | L176 =>
    if s.chopsticks.get (right id) = none then
      some { s with
        chopsticks := s.chopsticks.set (right id) (some id), pc := s.pc.set id L182 }
    else some { s with pc := s.pc.set id L177 }
  -- 177: this_thread::sleep_for(chrono::milliseconds(think_dist(gen) * 2));
  | L177 => some { s with pc := s.pc.set id L178 }
  -- 178: continue;
  | L178 => some { s with pc := s.pc.set id L171 }
  -- 182: lock_guard<mutex> lock(display_mutex);
  | L182 =>
    if s.display_mutex = none then
      some { s with display_mutex := some id, pc := s.pc.set id L183 }
    else none
  -- 183: last_chopstick_users[right] = current_chopstick_users[right];
  | L183 =>
    some { s with
      last_chopstick_users :=
        s.last_chopstick_users.set (right id) (s.current_chopstick_users.get (right id)),
      pc := s.pc.set id L184 }
  -- 184: current_chopstick_users[right] = id;
  | L184 =>
    some { s with
      current_chopstick_users := s.current_chopstick_users.set (right id) (id.val : Int),
      pc := s.pc.set id L185 }
  -- 185: }
  | L185 => some { s with display_mutex := none, pc := s.pc.set id L187 }
  -- 187: this_thread::sleep_for(chrono::milliseconds(200));
  | L187 => some { s with pc := s.pc.set id L188 }
  -- 188: if (!chopsticks[left].try_lock()) {
  | L188 =>
    if s.chopsticks.get (left id) = none then
      some { s with
        chopsticks := s.chopsticks.set (left id) (some id), pc := s.pc.set id L200 }
    else some { s with pc := s.pc.set id L189 }
  -- 189: chopsticks[right].unlock();
  | L189 =>
    some { s with chopsticks := s.chopsticks.set (right id) none, pc := s.pc.set id L191 }
  -- 191: lock_guard<mutex> lock(display_mutex);
  | L191 =>
    if s.display_mutex = none then
      some { s with display_mutex := some id, pc := s.pc.set id L192 }
    else none
  -- 192: last_chopstick_users[right] = current_chopstick_users[right];
  | L192 =>
    some { s with
      last_chopstick_users :=
        s.last_chopstick_users.set (right id) (s.current_chopstick_users.get (right id)),
      pc := s.pc.set id L193 }
  -- 193: current_chopstick_users[right] = -1;
  | L193 =>
    some { s with
      current_chopstick_users := s.current_chopstick_users.set (right id) (-1),
      pc := s.pc.set id L194 }
  -- 194: }
  | L194 => some { s with display_mutex := none, pc := s.pc.set id L195 }
  -- 195: this_thread::sleep_for(chrono::milliseconds(think_dist(gen) * 2));
  | L195 => some { s with pc := s.pc.set id L196 }
  -- 196: continue;
  | L196 => some { s with pc := s.pc.set id L171 }
  -- 200: lock_guard<mutex> lock(display_mutex);
  | L200 =>
    if s.display_mutex = none then
      some { s with display_mutex := some id, pc := s.pc.set id L201 }
    else none
  -- 201: last_chopstick_users[left] = current_chopstick_users[left];
  | L201 =>
    some { s with
      last_chopstick_users :=
        s.last_chopstick_users.set (left id) (s.current_chopstick_users.get (left id)),
      pc := s.pc.set id L202 }
  -- 202: current_chopstick_users[left] = id;
  | L202 =>
    some { s with
      current_chopstick_users := s.current_chopstick_users.set (left id) (id.val : Int),
      pc := s.pc.set id L203 }
  -- 203: }
  | L203 => some { s with display_mutex := none, pc := s.pc.set id L223 }
  -- 206: chopsticks[left].lock();
  | L206 =>
    if s.chopsticks.get (left id) = none then
      some { s with
        chopsticks := s.chopsticks.set (left id) (some id), pc := s.pc.set id L208 }
    else none
  -- 208: lock_guard<mutex> lock(display_mutex);
  | L208 =>
    if s.display_mutex = none then
      some { s with display_mutex := some id, pc := s.pc.set id L209 }
    else none
  -- 209: last_chopstick_users[left] = current_chopstick_users[left];
  | L209 =>
    some { s with
      last_chopstick_users :=
        s.last_chopstick_users.set (left id) (s.current_chopstick_users.get (left id)),
      pc := s.pc.set id L210 }
  -- 210: current_chopstick_users[left] = id;
  | L210 =>
    some { s with
      current_chopstick_users := s.current_chopstick_users.set (left id) (id.val : Int),
      pc := s.pc.set id L211 }
  -- 211: }
  | L211 => some { s with display_mutex := none, pc := s.pc.set id L213 }
  -- 213: this_thread::sleep_for(chrono::milliseconds(50));
  | L213 => some { s with pc := s.pc.set id L215 }
  -- 215: chopsticks[right].lock();
  | L215 =>
    if s.chopsticks.get (right id) = none then
      some { s with
        chopsticks := s.chopsticks.set (right id) (some id), pc := s.pc.set id L217 }
    else none
  -- 217: lock_guard<mutex> lock(display_mutex);
  | L217 =>
    if s.display_mutex = none then
      some { s with display_mutex := some id, pc := s.pc.set id L218 }
    else none
  -- 218: last_chopstick_users[right] = current_chopstick_users[right];
  | L218 =>
    some { s with
      last_chopstick_users :=
        s.last_chopstick_users.set (right id) (s.current_chopstick_users.get (right id)),
      pc := s.pc.set id L219 }
  -- 219: current_chopstick_users[right] = id;
  | L219 =>
    some { s with
      current_chopstick_users := s.current_chopstick_users.set (right id) (id.val : Int),
      pc := s.pc.set id L220 }
  -- 220: }
  | L220 => some { s with display_mutex := none, pc := s.pc.set id L223 }
  -- 223: states[id] = PhilosopherState::EATING;
  | L223 => some { s with states := s.states.set id EATING, pc := s.pc.set id L224 }
  -- 224: meals_eaten[id]++;
  | L224 =>
    some { s with
      meals_eaten := s.meals_eaten.set id (intIncrement (s.meals_eaten.get id)),
      pc := s.pc.set id L225 }
  -- 225: display_status(id);
  | L225 =>
    if s.display_mutex = none then
      some { s with display_mutex := some id, pc := s.pc.set id L225r }
    else none
  -- 225: (in display_status, lines 35-83: render, release the guard)
  | L225r => some { s with display_mutex := none, pc := s.pc.set id L227 }
  -- 227: this_thread::sleep_for(chrono::seconds(eat_dist(gen)));
  | L227 => some { s with pc := s.pc.set id L230 }
  -- 230: lock_guard<mutex> lock(display_mutex);
  | L230 =>
    if s.display_mutex = none then
      some { s with display_mutex := some id, pc := s.pc.set id L231 }
    else none
  -- 231: last_chopstick_users[left] = current_chopstick_users[left];
  | L231 =>
    some { s with
      last_chopstick_users :=
        s.last_chopstick_users.set (left id) (s.current_chopstick_users.get (left id)),
      pc := s.pc.set id L232 }
  -- 232: current_chopstick_users[left] = -1;
  | L232 =>
    some { s with
      current_chopstick_users := s.current_chopstick_users.set (left id) (-1),
      pc := s.pc.set id L233 }
  -- 233: last_chopstick_users[right] = current_chopstick_users[right];
  | L233 =>
    some { s with
      last_chopstick_users :=
        s.last_chopstick_users.set (right id) (s.current_chopstick_users.get (right id)),
      pc := s.pc.set id L234 }
  -- 234: current_chopstick_users[right] = -1;
  | L234 =>
    some { s with
      current_chopstick_users := s.current_chopstick_users.set (right id) (-1),
      pc := s.pc.set id L235 }
  -- 235: }
  | L235 => some { s with display_mutex := none, pc := s.pc.set id L236 }
  -- 236: chopsticks[left].unlock();
  | L236 =>
    some { s with chopsticks := s.chopsticks.set (left id) none, pc := s.pc.set id L237 }
  -- 237: chopsticks[right].unlock();
  | L237 =>
    some { s with chopsticks := s.chopsticks.set (right id) none, pc := s.pc.set id L239 }
  -- 239: states[id] = PhilosopherState::THINKING;
  | L239 => some { s with states := s.states.set id THINKING, pc := s.pc.set id L240 }
  -- 240: display_status(id);
  | L240 =>
    if s.display_mutex = none then
      some { s with display_mutex := some id, pc := s.pc.set id L240r }
    else none
  -- 240: (in display_status, lines 35-83: render, release the guard)
  | L240r => some { s with display_mutex := none, pc := s.pc.set id L242 }
  -- 242: this_thread::sleep_for(chrono::seconds(id == 0 ? think_dist(gen) * 2 : think_dist(gen)));
  | L242 => some { s with pc := s.pc.set id L171 }
  -- 244: } (the function has returned)
  | L244 => none

/-- All threads at the loop test of line 171, nothing held. -/
def init : State PC := State.initial PC.L171

end StarvationVersion

/-! ## `CorrectVersion` (lines 247-299) -/

namespace CorrectVersion

/-- The statements of `CorrectVersion::philosophize`, named by source line.  A name ending
in `r` is the body of `display_status` (lines 35-83) entered from that line, holding the
guard of line 34; `L298` is the end of the function. -/
inductive PC where
  | L256 | L257 | L258 | L258r | L260 | L262 | L264 | L265 | L266 | L267 | L268 | L270 | L271
  | L272 | L273 | L275 | L276 | L277 | L277r | L279 | L282 | L283 | L284 | L285 | L286 | L287
  | L288 | L289 | L291 | L293 | L294 | L294r | L296 | L298
  deriving DecidableEq, Repr

open PC PhilosopherState in
/-- One step of thread `id` in `CorrectVersion::philosophize`. -/
def philosophize (id : Fin NUM_PHILOSOPHERS) (s : State PC) : Option (State PC) :=
  match s.pc.get id with
  -- 256: while (running) {
  | L256 => some { s with pc := s.pc.set id (if s.running then L257 else L298) }
  -- 257: states[id] = PhilosopherState::HUNGRY;
  | L257 => some { s with states := s.states.set id HUNGRY, pc := s.pc.set id L258 }
  -- 258: display_status(id);
  | L258 =>
    if s.display_mutex = none then
      some { s with display_mutex := some id, pc := s.pc.set id L258r }
    else none
  -- 258: (in display_status, lines 35-83: render, release the guard)
  | L258r => some { s with display_mutex := none, pc := s.pc.set id L260 }
  -- 260: arbitrator.lock();
  | L260 =>
    if s.arbitrator = none then
      some { s with arbitrator := some id, pc := s.pc.set id L262 }
    else none
  -- 262: chopsticks[left].lock();
  | L262 =>
    if s.chopsticks.get (left id) = none then
      some { s with
        chopsticks := s.chopsticks.set (left id) (some id), pc := s.pc.set id L264 }
    else none
  -- 264: lock_guard<mutex> lock(display_mutex);
  | L264 =>
    if s.display_mutex = none then
      some { s with display_mutex := some id, pc := s.pc.set id L265 }
    else none
  -- 265: last_chopstick_users[left] = current_chopstick_users[left];
  | L265 =>
    some { s with
      last_chopstick_users :=
        s.last_chopstick_users.set (left id) (s.current_chopstick_users.get (left id)),
      pc := s.pc.set id L266 }
  -- 266: current_chopstick_users[left] = id;
  | L266 =>
    some { s with
      current_chopstick_users := s.current_chopstick_users.set (left id) (id.val : Int),
      pc := s.pc.set id L267 }
  -- 267: }
  | L267 => some { s with display_mutex := none, pc := s.pc.set id L268 }
  -- 268: chopsticks[right].lock();
  | L268 =>
    if s.chopsticks.get (right id) = none then
      some { s with
        chopsticks := s.chopsticks.set (right id) (some id), pc := s.pc.set id L270 }
    else none
  -- 270: lock_guard<mutex> lock(display_mutex);
  | L270 =>
    if s.display_mutex = none then
      some { s with display_mutex := some id, pc := s.pc.set id L271 }
    else none
  -- 271: last_chopstick_users[right] = current_chopstick_users[right];
  | L271 =>
    some { s with
      last_chopstick_users :=
        s.last_chopstick_users.set (right id) (s.current_chopstick_users.get (right id)),
      pc := s.pc.set id L272 }
  -- 272: current_chopstick_users[right] = id;
  | L272 =>
    some { s with
      current_chopstick_users := s.current_chopstick_users.set (right id) (id.val : Int),
      pc := s.pc.set id L273 }
  -- 273: }
  | L273 => some { s with display_mutex := none, pc := s.pc.set id L275 }
  -- 275: states[id] = PhilosopherState::EATING;
  | L275 => some { s with states := s.states.set id EATING, pc := s.pc.set id L276 }
  -- 276: meals_eaten[id]++;
  | L276 =>
    some { s with
      meals_eaten := s.meals_eaten.set id (intIncrement (s.meals_eaten.get id)),
      pc := s.pc.set id L277 }
  -- 277: display_status(id);
  | L277 =>
    if s.display_mutex = none then
      some { s with display_mutex := some id, pc := s.pc.set id L277r }
    else none
  -- 277: (in display_status, lines 35-83: render, release the guard)
  | L277r => some { s with display_mutex := none, pc := s.pc.set id L279 }
  -- 279: this_thread::sleep_for(chrono::seconds(eat_dist(gen)));
  | L279 => some { s with pc := s.pc.set id L282 }
  -- 282: lock_guard<mutex> lock(display_mutex);
  | L282 =>
    if s.display_mutex = none then
      some { s with display_mutex := some id, pc := s.pc.set id L283 }
    else none
  -- 283: last_chopstick_users[left] = current_chopstick_users[left];
  | L283 =>
    some { s with
      last_chopstick_users :=
        s.last_chopstick_users.set (left id) (s.current_chopstick_users.get (left id)),
      pc := s.pc.set id L284 }
  -- 284: current_chopstick_users[left] = -1;
  | L284 =>
    some { s with
      current_chopstick_users := s.current_chopstick_users.set (left id) (-1),
      pc := s.pc.set id L285 }
  -- 285: last_chopstick_users[right] = current_chopstick_users[right];
  | L285 =>
    some { s with
      last_chopstick_users :=
        s.last_chopstick_users.set (right id) (s.current_chopstick_users.get (right id)),
      pc := s.pc.set id L286 }
  -- 286: current_chopstick_users[right] = -1;
  | L286 =>
    some { s with
      current_chopstick_users := s.current_chopstick_users.set (right id) (-1),
      pc := s.pc.set id L287 }
  -- 287: }
  | L287 => some { s with display_mutex := none, pc := s.pc.set id L288 }
  -- 288: chopsticks[left].unlock();
  | L288 =>
    some { s with chopsticks := s.chopsticks.set (left id) none, pc := s.pc.set id L289 }
  -- 289: chopsticks[right].unlock();
  | L289 =>
    some { s with chopsticks := s.chopsticks.set (right id) none, pc := s.pc.set id L291 }
  -- 291: arbitrator.unlock();
  | L291 => some { s with arbitrator := none, pc := s.pc.set id L293 }
  -- 293: states[id] = PhilosopherState::THINKING;
  | L293 => some { s with states := s.states.set id THINKING, pc := s.pc.set id L294 }
  -- 294: display_status(id);
  | L294 =>
    if s.display_mutex = none then
      some { s with display_mutex := some id, pc := s.pc.set id L294r }
    else none
  -- 294: (in display_status, lines 35-83: render, release the guard)
  | L294r => some { s with display_mutex := none, pc := s.pc.set id L296 }
  -- 296: this_thread::sleep_for(chrono::seconds(think_dist(gen)));
  | L296 => some { s with pc := s.pc.set id L256 }
  -- 298: } (the function has returned)
  | L298 => none

/-- All threads at the loop test of line 256, nothing held. -/
def init : State PC := State.initial PC.L256

end CorrectVersion
/-! ## Program points by role, and the invariant they support -/

/-- Thread `id` has a step in state `s`. -/
def Enabled {PC : Type} (step : Fin NUM_PHILOSOPHERS → State PC → Option (State PC))
    (id : Fin NUM_PHILOSOPHERS) (s : State PC) : Prop :=
  (step id s).isSome = true

/-- The program points of a variant, by role: between which statements a thread has locked
its left chopstick, its right chopstick, `display_mutex`, `arbitrator`; between which
statements it has written its own id to `current_chopstick_users[left]` (`[right]`) and not
yet overwritten it; which `states[id]` it can have at a program point; and which program
points thread `id` can be at while `running` is set. -/
structure Layout (PC : Type) where
  holdsLeft : PC → Bool
  holdsRight : PC → Bool
  holdsDisplay : PC → Bool
  holdsArbitrator : PC → Bool
  curLeft : PC → Bool
  curRight : PC → Bool
  stateOk : PC → PhilosopherState → Bool
  pcOk : Fin NUM_PHILOSOPHERS → PC → Bool

/-- Thread `a` at program point `p` is between its `lock`/`try_lock` of chopstick `r` and
its `unlock` of it: `r` is its left or its right chopstick. -/
def Layout.holdsChop {PC : Type} (L : Layout PC) (r a : Fin NUM_PHILOSOPHERS) (p : PC) : Bool :=
  (decide (left a = r) && L.holdsLeft p) || (decide (right a = r) && L.holdsRight p)

/-- Thread `a` at program point `p` has written its id to `current_chopstick_users[r]` and
has not yet overwritten it. -/
def Layout.curOk {PC : Type} (L : Layout PC) (r a : Fin NUM_PHILOSOPHERS) (p : PC) : Bool :=
  (decide (left a = r) && L.curLeft p) || (decide (right a = r) && L.curRight p)

/-- The owner of mutex `m` is the thread whose program point is in `holds`. -/
def OwnerInv {PC : Type} (holds : Fin NUM_PHILOSOPHERS → PC → Bool) (pc : Vec5 PC)
    (m : Option (Fin NUM_PHILOSOPHERS)) : Prop :=
  ∀ a, m = some a ↔ holds a (pc.get a) = true

/-- What a step of thread `i` from program point `p` to `p'` does to a mutex (`m` before,
`m'` after): it acquires the free mutex, or it releases the mutex, or it leaves it alone. -/
def OwnerEff {PC : Type} (holds : Fin NUM_PHILOSOPHERS → PC → Bool) (i : Fin NUM_PHILOSOPHERS)
    (p p' : PC) (m m' : Option (Fin NUM_PHILOSOPHERS)) : Prop :=
  (holds i p = false ∧ holds i p' = true ∧ m = none ∧ m' = some i) ∨
  (holds i p = true ∧ holds i p' = false ∧ m' = none) ∨
  (holds i p' = holds i p ∧ m' = m)

/-- The invariant shared by the three variants, relative to a layout. -/
structure Inv {PC : Type} (L : Layout PC) (s : State PC) : Prop where
  running : s.running = true
  pcOk : ∀ a, L.pcOk a (s.pc.get a) = true
  display : OwnerInv (fun _ p => L.holdsDisplay p) s.pc s.display_mutex
  arbitrator : OwnerInv (fun _ p => L.holdsArbitrator p) s.pc s.arbitrator
  chop : ∀ r, OwnerInv (L.holdsChop r) s.pc (s.chopsticks.get r)
  state : ∀ a, L.stateOk (s.pc.get a) (s.states.get a) = true
  cur : ∀ r, s.current_chopstick_users.get r = -1 ∨
    ∃ a : Fin NUM_PHILOSOPHERS, s.current_chopstick_users.get r = (a.val : Int) ∧
      L.curOk r a (s.pc.get a) = true

/-- What one step of thread `i` from `s` to `s'` does, relative to a layout. -/
structure Eff {PC : Type} (L : Layout PC) (i : Fin NUM_PHILOSOPHERS) (s s' : State PC) :
    Prop where
  pc_eq : s'.pc = s.pc.set i (s'.pc.get i)
  running : s'.running = s.running
  pcOk : s.running = true → L.pcOk i (s.pc.get i) = true → L.pcOk i (s'.pc.get i) = true
  display : OwnerEff (fun _ p => L.holdsDisplay p) i (s.pc.get i) (s'.pc.get i)
    s.display_mutex s'.display_mutex
  arbitrator : OwnerEff (fun _ p => L.holdsArbitrator p) i (s.pc.get i) (s'.pc.get i)
    s.arbitrator s'.arbitrator
  chop : ∀ r, OwnerEff (L.holdsChop r) i (s.pc.get i) (s'.pc.get i)
    (s.chopsticks.get r) (s'.chopsticks.get r)
  states_other : ∀ a, a ≠ i → s'.states.get a = s.states.get a
  states_self : L.stateOk (s.pc.get i) (s.states.get i) = true →
    L.stateOk (s'.pc.get i) (s'.states.get i) = true
  cur : ∀ r, s'.current_chopstick_users.get r = -1 ∨
    (s'.current_chopstick_users.get r = (i.val : Int) ∧ L.curOk r i (s'.pc.get i) = true) ∨
    (s'.current_chopstick_users.get r = s.current_chopstick_users.get r ∧
      (L.curOk r i (s.pc.get i) = true → L.curOk r i (s'.pc.get i) = true))

namespace DeadlockVersion
open PC PhilosopherState

/-- After `chopsticks[left].lock()` (125) up to and including `chopsticks[left].unlock()`
(154). -/
def holdsLeft : PC → Bool
  | L127 | L128 | L129 | L130 | L131 | L131r | L132 | L134 | L136 | L137 | L138 | L139
  | L141 | L142 | L143 | L143r | L145 | L148 | L149 | L150 | L151 | L152 | L153 | L154 => true
  | _ => false

/-- After `chopsticks[right].lock()` (134) up to and including `chopsticks[right].unlock()`
(155). -/
def holdsRight : PC → Bool
  | L136 | L137 | L138 | L139 | L141 | L142 | L143 | L143r | L145 | L148 | L149 | L150
  | L151 | L152 | L153 | L154 | L155 => true
  | _ => false

/-- Inside `display_status` or inside a `lock_guard` block. -/
def holdsDisplay : PC → Bool
  | L123r | L128 | L129 | L130 | L131r | L137 | L138 | L139 | L143r
  | L149 | L150 | L151 | L152 | L153 | L158r => true
  | _ => false

/-- After `current_chopstick_users[left] = id` (129) up to and including
`current_chopstick_users[left] = -1` (150). -/
def curLeft : PC → Bool
  | L130 | L131 | L131r | L132 | L134 | L136 | L137 | L138 | L139
  | L141 | L142 | L143 | L143r | L145 | L148 | L149 | L150 => true
  | _ => false

/-- After `current_chopstick_users[right] = id` (138) up to and including
`current_chopstick_users[right] = -1` (152). -/
def curRight : PC → Bool
  | L139 | L141 | L142 | L143 | L143r | L145 | L148 | L149 | L150 | L151 | L152 => true
  | _ => false

/-- The value of `states[id]` at each program point: `THINKING` from line 157 to line 122,
`EATING` from line 141 to line 157, `HUNGRY` otherwise. -/
def stateOk : PC → PhilosopherState → Bool
  | L121, st | L122, st | L158, st | L158r, st | L160, st | L162, st => decide (st = THINKING)
  | L142, st | L143, st | L143r, st | L145, st | L148, st | L149, st | L150, st | L151, st
  | L152, st | L153, st | L154, st | L155, st | L157, st => decide (st = EATING)
  | _, st => decide (st = HUNGRY)

/-- The program points of `DeadlockVersion::philosophize` by role. -/
def layout : Layout PC where
  holdsLeft := holdsLeft
  holdsRight := holdsRight
  holdsDisplay := holdsDisplay
  holdsArbitrator _ := false
  curLeft := curLeft
  curRight := curRight
  stateOk := stateOk
  pcOk _ p := decide (p ≠ L162)

end DeadlockVersion

namespace StarvationVersion
open PC PhilosopherState

/-- After a successful `chopsticks[left].try_lock()` (188) or `chopsticks[left].lock()`
(206) up to and including `chopsticks[left].unlock()` (236). -/
def holdsLeft : PC → Bool
  | L200 | L201 | L202 | L203
  | L208 | L209 | L210 | L211 | L213 | L215 | L217 | L218 | L219 | L220
  | L223 | L224 | L225 | L225r | L227 | L230 | L231 | L232 | L233 | L234 | L235 | L236 => true
  | _ => false

/-- After a successful `chopsticks[right].try_lock()` (176) or `chopsticks[right].lock()`
(215) up to and including `chopsticks[right].unlock()` (189 or 237). -/
def holdsRight : PC → Bool
  | L182 | L183 | L184 | L185 | L187 | L188 | L189 | L200 | L201 | L202 | L203
  | L217 | L218 | L219 | L220
  | L223 | L224 | L225 | L225r | L227 | L230 | L231 | L232 | L233 | L234 | L235 | L236
  | L237 => true
  | _ => false

/-- Inside `display_status` or inside a `lock_guard` block. -/
def holdsDisplay : PC → Bool
  | L173r | L183 | L184 | L185 | L192 | L193 | L194 | L201 | L202 | L203
  | L209 | L210 | L211 | L218 | L219 | L220 | L225r
  | L231 | L232 | L233 | L234 | L235 | L240r => true
  | _ => false

/-- After `current_chopstick_users[left] = id` (202 or 210) up to and including
`current_chopstick_users[left] = -1` (232). -/
def curLeft : PC → Bool
  | L203 | L211 | L213 | L215 | L217 | L218 | L219 | L220
  | L223 | L224 | L225 | L225r | L227 | L230 | L231 | L232 => true
  | _ => false

/-- After `current_chopstick_users[right] = id` (184 or 219) up to and including
`current_chopstick_users[right] = -1` (193 or 234). -/
def curRight : PC → Bool
  | L185 | L187 | L188 | L189 | L191 | L192 | L193 | L200 | L201 | L202 | L203 | L220
  | L223 | L224 | L225 | L225r | L227 | L230 | L231 | L232 | L233 | L234 => true
  | _ => false

/-- The value of `states[id]` at each program point: `THINKING` from line 239 on, `EATING`
from line 223 to line 239, `HUNGRY` otherwise; at lines 171, 172 and 244 it is `THINKING`, or
`HUNGRY` after a `continue` (178, 196). -/
def stateOk : PC → PhilosopherState → Bool
  | L171, st | L172, st | L244, st => decide (st = THINKING) || decide (st = HUNGRY)
  | L240, st | L240r, st | L242, st => decide (st = THINKING)
  | L224, st | L225, st | L225r, st | L227, st | L230, st | L231, st | L232, st | L233, st
  | L234, st | L235, st | L236, st | L237, st | L239, st => decide (st = EATING)
  | _, st => decide (st = HUNGRY)

/-- The branch `if (id == 0)` of line 175 (lines 176-203) is run by thread 0 only, the
`else` branch (lines 206-220) by the other threads; no thread returns. -/
def pcOk (id : Fin NUM_PHILOSOPHERS) : PC → Bool
  | L176 | L177 | L178 | L182 | L183 | L184 | L185 | L187 | L188 | L189 | L191 | L192 | L193
  | L194 | L195 | L196 | L200 | L201 | L202 | L203 => decide (id = 0)
  | L206 | L208 | L209 | L210 | L211 | L213 | L215 | L217 | L218 | L219 | L220 =>
    decide (id ≠ 0)
  | L244 => false
  | _ => true

/-- The program points of `StarvationVersion::philosophize` by role. -/
def layout : Layout PC where
  holdsLeft := holdsLeft
  holdsRight := holdsRight
  holdsDisplay := holdsDisplay
  holdsArbitrator _ := false
  curLeft := curLeft
  curRight := curRight
  stateOk := stateOk
  pcOk := pcOk

end StarvationVersion

namespace CorrectVersion
open PC PhilosopherState

/-- After `arbitrator.lock()` (260) up to and including `arbitrator.unlock()` (291). -/
def holdsArbitrator : PC → Bool
  | L262 | L264 | L265 | L266 | L267 | L268 | L270 | L271 | L272 | L273 | L275 | L276
  | L277 | L277r | L279 | L282 | L283 | L284 | L285 | L286 | L287 | L288 | L289 | L291 => true
  | _ => false

/-- After `chopsticks[left].lock()` (262) up to and including `chopsticks[left].unlock()`
(288). -/
def holdsLeft : PC → Bool
  | L264 | L265 | L266 | L267 | L268 | L270 | L271 | L272 | L273 | L275 | L276
  | L277 | L277r | L279 | L282 | L283 | L284 | L285 | L286 | L287 | L288 => true
  | _ => false

/-- After `chopsticks[right].lock()` (268) up to and including `chopsticks[right].unlock()`
(289). -/
def holdsRight : PC → Bool
  | L270 | L271 | L272 | L273 | L275 | L276
  | L277 | L277r | L279 | L282 | L283 | L284 | L285 | L286 | L287 | L288 | L289 => true
  | _ => false

/-- Inside `display_status` or inside a `lock_guard` block. -/
def holdsDisplay : PC → Bool
  | L258r | L265 | L266 | L267 | L271 | L272 | L273 | L277r
  | L283 | L284 | L285 | L286 | L287 | L294r => true
  | _ => false

/-- After `current_chopstick_users[left] = id` (266) up to and including
`current_chopstick_users[left] = -1` (284). -/
def curLeft : PC → Bool
  | L267 | L268 | L270 | L271 | L272 | L273 | L275 | L276
  | L277 | L277r | L279 | L282 | L283 | L284 => true
  | _ => false

/-- After `current_chopstick_users[right] = id` (272) up to and including
`current_chopstick_users[right] = -1` (286). -/
def curRight : PC → Bool
  | L273 | L275 | L276 | L277 | L277r | L279 | L282 | L283 | L284 | L285 | L286 => true
  | _ => false

/-- The value of `states[id]` at each program point: `THINKING` from line 293 to line 257,
`EATING` from line 275 to line 293, `HUNGRY` otherwise. -/
def stateOk : PC → PhilosopherState → Bool
  | L256, st | L257, st | L294, st | L294r, st | L296, st | L298, st => decide (st = THINKING)
  | L276, st | L277, st | L277r, st | L279, st | L282, st | L283, st | L284, st | L285, st
  | L286, st | L287, st | L288, st | L289, st | L291, st | L293, st => decide (st = EATING)
  | _, st => decide (st = HUNGRY)

/-- The program points of `CorrectVersion::philosophize` by role. -/
def layout : Layout PC where
  holdsLeft := holdsLeft
  holdsRight := holdsRight
  holdsDisplay := holdsDisplay
  holdsArbitrator := holdsArbitrator
  curLeft := curLeft
  curRight := curRight
  stateOk := stateOk
  pcOk _ p := decide (p ≠ L298)

end CorrectVersion

/-! ## Notions used by the statements -/

/-- The threads that hold chopstick `r` in state `s`: those between their successful
`lock`/`try_lock` of `r` and their own `unlock` of `r`. -/
def Layout.holders {PC : Type} (L : Layout PC) (s : State PC) (r : Fin NUM_PHILOSOPHERS) :
    Finset (Fin NUM_PHILOSOPHERS) :=
  Finset.univ.filter (fun a => L.holdsChop r a (s.pc.get a) = true)

/-- Mutual exclusion on every chopstick: at most one thread holds it, and the holder is the
owner recorded by the mutex. -/
def ChopstickExclusion {PC : Type} (L : Layout PC) (s : State PC) : Prop :=
  ∀ r, (L.holders s r).card ≤ 1 ∧ ∀ a, a ∈ L.holders s r ↔ s.chopsticks.get r = some a

/-- Thread `a` owns no mutex at all. -/
def HoldsNothing {PC : Type} (s : State PC) (a : Fin NUM_PHILOSOPHERS) : Prop :=
  (∀ r, s.chopsticks.get r ≠ some a) ∧ s.arbitrator ≠ some a ∧ s.display_mutex ≠ some a

/-- The holder metadata of chopstick `r` is `-1` or the id of a thread next to `r` whose
state is `EATING` or `HUNGRY`. -/
def HolderMetadataOk {PC : Type} (s : State PC) (r : Fin NUM_PHILOSOPHERS) : Prop :=
  s.current_chopstick_users.get r = -1 ∨
  ∃ a : Fin NUM_PHILOSOPHERS, s.current_chopstick_users.get r = (a.val : Int) ∧
    (s.states.get a = PhilosopherState.EATING ∨ s.states.get a = PhilosopherState.HUNGRY) ∧
    (a = r ∨ (a.val + 1) % NUM_PHILOSOPHERS = r.val)

/-- The number of indices `i` with `states[i] == EATING`. -/
def eatingCount {PC : Type} (s : State PC) : Nat :=
  (Finset.univ.filter (fun i => s.states.get i = PhilosopherState.EATING)).card

namespace DeadlockVersion

/-- Threads 0, 1, 2, 3, 4 in turn run lines 121-132 (twelve steps each): each takes its left
chopstick and arrives at `chopsticks[right].lock()` (line 134). -/
def deadlockSchedule : List (Fin NUM_PHILOSOPHERS) :=
  List.replicate 12 0 ++ List.replicate 12 1 ++ List.replicate 12 2 ++ List.replicate 12 3 ++
    List.replicate 12 4

/-- The state after `deadlockSchedule`: every thread is `HUNGRY`, owns its left chopstick and
is at line 134. -/
def deadlocked : State PC where
  running := true
  states := Vec5.replicate PhilosopherState.HUNGRY
  meals_eaten := Vec5.replicate 0
  chopsticks := ⟨some 0, some 1, some 2, some 3, some 4⟩
  current_chopstick_users := ⟨0, 1, 2, 3, 4⟩
  last_chopstick_users := Vec5.replicate (-1)
  display_mutex := none
  arbitrator := none
  pc := Vec5.replicate PC.L134

end DeadlockVersion

namespace CorrectVersion

/-- Thread 0 runs lines 256-291 (29 steps: it eats, releases both chopsticks and the
arbitrator, and stops before `states[id] = THINKING` of line 293); then thread 1 runs lines
256-275 (16 steps: it takes the arbitrator and both chopsticks and sets `EATING`). -/
def twoEatingSchedule : List (Fin NUM_PHILOSOPHERS) :=
  List.replicate 29 0 ++ List.replicate 16 1

/-- The state after `twoEatingSchedule`. -/
def twoEating : State PC where
  running := true
  states := ⟨PhilosopherState.EATING, PhilosopherState.EATING, PhilosopherState.THINKING,
    PhilosopherState.THINKING, PhilosopherState.THINKING⟩
  meals_eaten := ⟨1, 0, 0, 0, 0⟩
  chopsticks := ⟨none, some 1, some 1, none, none⟩
  current_chopstick_users := ⟨-1, 1, 1, -1, -1⟩
  last_chopstick_users := ⟨0, -1, -1, -1, -1⟩
  display_mutex := none
  arbitrator := some 1
  pc := ⟨PC.L293, PC.L276, PC.L256, PC.L256, PC.L256⟩

end CorrectVersion

namespace StarvationVersion

/-- Thread 4 runs lines 171-215 (12 steps: it holds chopsticks 4 and 0).  Thread 0 runs
lines 171-189 (13 steps: `try_lock` of chopstick 1 succeeds, `try_lock` of chopstick 0
fails, it unlocks chopstick 1).  Thread 1 runs lines 171-211 (10 steps: it locks chopstick 1
and records itself as its user).  Thread 0 runs lines 191-193 (3 steps) and is at the
closing brace of line 194. -/
def staleReleaseSchedule : List (Fin NUM_PHILOSOPHERS) :=
  List.replicate 12 4 ++ List.replicate 13 0 ++ List.replicate 10 1 ++ List.replicate 3 0

/-- The state after `staleReleaseSchedule`. -/
def staleRelease : State PC where
  running := true
  states := ⟨PhilosopherState.HUNGRY, PhilosopherState.HUNGRY, PhilosopherState.THINKING,
    PhilosopherState.THINKING, PhilosopherState.HUNGRY⟩
  meals_eaten := Vec5.replicate 0
  chopsticks := ⟨some 4, some 1, none, none, some 4⟩
  current_chopstick_users := ⟨-1, -1, -1, -1, 4⟩
  last_chopstick_users := ⟨-1, 1, -1, -1, -1⟩
  display_mutex := some 0
  arbitrator := none
  pc := ⟨PC.L194, PC.L213, PC.L171, PC.L171, PC.L217⟩

end StarvationVersion

namespace CorrectVersion

/-- The threads with `states[i] == EATING` that have not yet executed `arbitrator.unlock()`
(line 291), that is, are not at `states[id] = THINKING` (line 293). -/
def eatingInside (s : State PC) : Finset (Fin NUM_PHILOSOPHERS) :=
  Finset.univ.filter
    (fun i => s.states.get i = PhilosopherState.EATING ∧ s.pc.get i ≠ PC.L293)

end CorrectVersion

namespace StarvationVersion

/-- The number of `continue` statements (lines 178, 196) thread 0 executes along a schedule
run from `s`: each ends one acquisition attempt of thread 0 after a failed `try_lock`. -/
def continueCount : List (Fin NUM_PHILOSOPHERS) → State PC → Nat
  | [], _ => 0
  | i :: rest, s =>
    match philosophize i s with
    | some s' =>
      (if i = 0 ∧ (s.pc.get 0 = PC.L178 ∨ s.pc.get 0 = PC.L196) then 1 else 0) +
        continueCount rest s'
    | none => 0

/-- All threads at the loop test of line 171 with nothing held; threads 1-4 are `THINKING`,
thread 0 has state `st0`; meal counters `m`, last users `l`. -/
def betweenMeals (st0 : PhilosopherState) (m : Vec5 Int) (l : Vec5 Int) : State PC where
  running := true
  states := ⟨st0, PhilosopherState.THINKING, PhilosopherState.THINKING,
    PhilosopherState.THINKING, PhilosopherState.THINKING⟩
  meals_eaten := m
  chopsticks := Vec5.replicate none
  current_chopstick_users := Vec5.replicate (-1)
  last_chopstick_users := l
  display_mutex := none
  arbitrator := none
  pc := Vec5.replicate PC.L171

/-- One round: thread 1 runs lines 171-206 (6 steps, it locks chopstick 1); thread 0 runs
lines 171-178 (8 steps: `try_lock` of chopstick 1 fails, it sleeps and executes `continue`);
thread 1 runs lines 208-242 (27 steps: it eats and releases). -/
def starveRound : List (Fin NUM_PHILOSOPHERS) :=
  List.replicate 6 1 ++ List.replicate 8 0 ++ List.replicate 27 1

/-- The schedule of `k` rounds. -/
def starveSchedule : Nat → List (Fin NUM_PHILOSOPHERS)
  | 0 => []
  | k + 1 => starveRound ++ starveSchedule k

end StarvationVersion

/-! ## Infinite executions under a scheduler -/

/-- The scheduler gives thread `i` a turn: the thread executes the statement it is at if it
has a step; a thread blocked in `lock()` stays where it is and the state is unchanged. -/
def schedStep {PC : Type} (step : Fin NUM_PHILOSOPHERS → State PC → Option (State PC))
    (i : Fin NUM_PHILOSOPHERS) (s : State PC) : State PC :=
  (step i s).getD s

/-- The state after the scheduler has given the listed threads a turn each, in order. -/
def runTurns {PC : Type} (step : Fin NUM_PHILOSOPHERS → State PC → Option (State PC)) :
    List (Fin NUM_PHILOSOPHERS) → State PC → State PC
  | [], s => s
  | i :: rest, s =>
    match step i s with
    | some s' => runTurns step rest s'
    | none => runTurns step rest s

/-- An infinite execution of a variant: `σ 0` is the initial state, and at every time `n`
the scheduler gives thread `who n` a turn, which leads from `σ n` to `σ (n + 1)`. -/
def IsScheduling {PC : Type} (step : Fin NUM_PHILOSOPHERS → State PC → Option (State PC))
    (init : State PC) (σ : Nat → State PC) (who : Nat → Fin NUM_PHILOSOPHERS) : Prop :=
  σ 0 = init ∧ ∀ n, σ (n + 1) = schedStep step (who n) (σ n)

/-- Every thread that has an enabled step is eventually scheduled: if thread `a` has a step
in `σ n`, the scheduler gives `a` a turn at some time `m ≥ n`. -/
def FairlyScheduled {PC : Type} (step : Fin NUM_PHILOSOPHERS → State PC → Option (State PC))
    (σ : Nat → State PC) (who : Nat → Fin NUM_PHILOSOPHERS) : Prop :=
  ∀ n a, Enabled step a (σ n) → ∃ m, n ≤ m ∧ who m = a

/-- The stronger assumption: if thread `a` has a step in `σ n`, the scheduler gives `a` a
turn at some time `m ≥ n` at which `a` has a step. -/
def FairlyServed {PC : Type} (step : Fin NUM_PHILOSOPHERS → State PC → Option (State PC))
    (σ : Nat → State PC) (who : Nat → Fin NUM_PHILOSOPHERS) : Prop :=
  ∀ n a, Enabled step a (σ n) → ∃ m, n ≤ m ∧ who m = a ∧ Enabled step a (σ m)

/-- Thread `a` executes the statement it is at in `σ n` at some time `m ≥ n`. -/
def NextStep {PC : Type} (step : Fin NUM_PHILOSOPHERS → State PC → Option (State PC))
    (σ : Nat → State PC) (who : Nat → Fin NUM_PHILOSOPHERS)
    (a : Fin NUM_PHILOSOPHERS) (n : Nat) : Prop :=
  ∃ m, n ≤ m ∧ who m = a ∧ Enabled step a (σ m) ∧ (σ m).pc.get a = (σ n).pc.get a

namespace CorrectVersion
open PC

/-- The number of steps a thread inside `display_status` or a `lock_guard` block takes until
it has released `display_mutex`. -/
def displayRemaining : PC → Nat
  | L258r | L267 | L273 | L277r | L287 | L294r => 1
  | L266 | L272 | L286 => 2
  | L265 | L271 | L285 => 3
  | L284 => 4
  | L283 => 5
  | _ => 0

/-- The number of steps a thread that owns the arbitrator takes until it has executed
`arbitrator.unlock()` (line 291). -/
def arbitratorRemaining : PC → Nat
  | L291 => 1 | L289 => 2 | L288 => 3 | L287 => 4 | L286 => 5 | L285 => 6 | L284 => 7
  | L283 => 8 | L282 => 9 | L279 => 10 | L277r => 11 | L277 => 12 | L276 => 13 | L275 => 14
  | L273 => 15 | L272 => 16 | L271 => 17 | L270 => 18 | L268 => 19 | L267 => 20 | L266 => 21
  | L265 => 22 | L264 => 23 | L262 => 24
  | _ => 0

/-- The number of steps a thread takes until it is at `meals_eaten[id]++` (line 276). -/
def stepsToMeal : PC → Nat
  | L276 => 0 | L275 => 1 | L273 => 2 | L272 => 3 | L271 => 4 | L270 => 5 | L268 => 6
  | L267 => 7 | L266 => 8 | L265 => 9 | L264 => 10 | L262 => 11 | L260 => 12 | L258r => 13
  | L258 => 14 | L257 => 15 | L256 => 16 | L296 => 17 | L294r => 18 | L294 => 19 | L293 => 20
  | L291 => 21 | L289 => 22 | L288 => 23 | L287 => 24 | L286 => 25 | L285 => 26 | L284 => 27
  | L283 => 28 | L282 => 29 | L279 => 30 | L277r => 31 | L277 => 32
  | L298 => 0

/-- All five threads are `HUNGRY` and wait at `arbitrator.lock()` (line 260); nothing is
held; meal counters `m`, last users `l`. -/
def allWaiting (m : Vec5 Int) (l : Vec5 Int) : State PC where
  running := true
  states := Vec5.replicate PhilosopherState.HUNGRY
  meals_eaten := m
  chopsticks := Vec5.replicate none
  current_chopstick_users := Vec5.replicate (-1)
  last_chopstick_users := l
  display_mutex := none
  arbitrator := none
  pc := Vec5.replicate PC.L260

/-- One round of thread `a`, 34 turns: `a` runs lines 260-272 (10 steps: it takes the
arbitrator and both chopsticks); its right neighbour, waiting at `arbitrator.lock()`, is
given a turn and stays blocked; `a` runs lines 273-296 and 256-258 (23 steps: it eats,
releases, thinks and is back at `arbitrator.lock()`). -/
def contendRound (a : Fin NUM_PHILOSOPHERS) : List (Fin NUM_PHILOSOPHERS) :=
  (List.range 34).map (fun j => if j = 10 then right a else a)

/-- The schedule in which threads 0, 1, 2, 3, 4 in turn run lines 256-258 (4 steps each,
20 turns) and then, for ever, threads 0, 1, 2, 3, 4 in turn are given one round. -/
def contend (n : Nat) : Fin NUM_PHILOSOPHERS :=
  if n < 20 then ⟨n / 4 % NUM_PHILOSOPHERS, Nat.mod_lt _ (by decide)⟩
  else if (n - 20) % 34 = 10 then
    right ⟨(n - 20) / 34 % NUM_PHILOSOPHERS, Nat.mod_lt _ (by decide)⟩
  else ⟨(n - 20) / 34 % NUM_PHILOSOPHERS, Nat.mod_lt _ (by decide)⟩

/-- The state after the first `n` turns of the schedule `contend`. -/
def contendState (n : Nat) : State PC :=
  runTurns philosophize ((List.range n).map contend) init

/-- Thread 0 is `HUNGRY` at `arbitrator.lock()` (line 260); threads 1-4 are `THINKING` at
the loop test of line 256; nothing is held; meal counters `m`, last users `l`. -/
def parked (m : Vec5 Int) (l : Vec5 Int) : State PC where
  running := true
  states := ⟨PhilosopherState.HUNGRY, PhilosopherState.THINKING, PhilosopherState.THINKING,
    PhilosopherState.THINKING, PhilosopherState.THINKING⟩
  meals_eaten := m
  chopsticks := Vec5.replicate none
  current_chopstick_users := Vec5.replicate (-1)
  last_chopstick_users := l
  display_mutex := none
  arbitrator := none
  pc := ⟨PC.L260, PC.L256, PC.L256, PC.L256, PC.L256⟩

/-- One round of thread `a` while thread 0 waits, 34 turns: `a` runs lines 256-267 (10
steps: it takes the arbitrator and its left chopstick); thread 0, waiting at
`arbitrator.lock()`, is given a turn and stays blocked; `a` runs lines 268-296 (23 steps: it
eats, releases the arbitrator, and is back at the loop test). -/
def stallRound (a : Fin NUM_PHILOSOPHERS) : List (Fin NUM_PHILOSOPHERS) :=
  (List.range 34).map (fun j => if j = 10 then 0 else a)

/-- The schedule in which thread 0 runs lines 256-258 (4 steps) and then, for ever, threads
1, 2, 3, 4 in turn are given one round each, thread 0 being given a turn in the middle of
every round. -/
def stall (n : Nat) : Fin NUM_PHILOSOPHERS :=
  if n < 4 then 0
  else if (n - 4) % 34 = 10 then 0
  else ⟨(n - 4) / 34 % 4 + 1, Nat.succ_lt_succ (Nat.mod_lt _ (by decide))⟩

/-- The state after the first `n` turns of the schedule `stall`. -/
def stallState (n : Nat) : State PC :=
  runTurns philosophize ((List.range n).map stall) init

end CorrectVersion

/-! ## Vectors and indices -/

namespace Vec5
variable {α : Type}

@[simp] theorem get_replicate (a : α) (i : Fin NUM_PHILOSOPHERS) : (replicate a).get i = a := by
  fin_cases i <;> rfl

@[simp] theorem get_set_same (v : Vec5 α) (i : Fin NUM_PHILOSOPHERS) (a : α) :
    (v.set i a).get i = a := by
  fin_cases i <;> rfl

theorem get_set_ne (v : Vec5 α) {i j : Fin NUM_PHILOSOPHERS} (a : α) (h : j ≠ i) :
    (v.set i a).get j = v.get j := by
  fin_cases i <;> fin_cases j <;> first | rfl | exact absurd rfl h

theorem get_set (v : Vec5 α) (i j : Fin NUM_PHILOSOPHERS) (a : α) :
    (v.set i a).get j = if j = i then a else v.get j := by
  by_cases h : j = i
  · subst h; simp
  · simp [h, get_set_ne]

theorem set_set (v : Vec5 α) (i : Fin NUM_PHILOSOPHERS) (a b : α) :
    (v.set i a).set i b = v.set i b := by
  fin_cases i <;> rfl

end Vec5

theorem right_ne (a : Fin NUM_PHILOSOPHERS) : right a ≠ a := by
  fin_cases a <;> decide

theorem right_injective {a b : Fin NUM_PHILOSOPHERS} (h : right a = right b) : a = b := by
  revert h; fin_cases a <;> fin_cases b <;> decide

/-! ## The increment of an `int` -/

theorem intIncrement_eq (x : Int) (h1 : INT_MIN ≤ x) (h2 : x < INT_MAX) :
    intIncrement x = x + 1 := by
  unfold INT_MIN at h1
  unfold INT_MAX at h2
  unfold intIncrement
  omega

theorem intIncrement_range (x : Int) : INT_MIN ≤ intIncrement x ∧ intIncrement x ≤ INT_MAX := by
  unfold INT_MIN INT_MAX intIncrement
  omega

/-! ## The invariant is preserved by every step -/

section Generic
variable {PC : Type}

/-- A step that acquires the free mutex, releases it, or leaves it alone keeps the owner
recorded by the mutex equal to the thread whose program point holds it. -/
theorem OwnerInv.owner_preserved {holds : Fin NUM_PHILOSOPHERS → PC → Bool} {pc : Vec5 PC}
    {m m' : Option (Fin NUM_PHILOSOPHERS)} {i : Fin NUM_PHILOSOPHERS} {p' : PC}
    (h : OwnerInv holds pc m) (e : OwnerEff holds i (pc.get i) p' m m') :
    OwnerInv holds (pc.set i p') m' := by
  intro a
  by_cases hai : a = i
  · subst hai
    rw [Vec5.get_set_same]
    rcases e with ⟨_, h2, _, h4⟩ | ⟨_, h2, h3⟩ | ⟨h1, h2⟩
    · simp [h2, h4]
    · simp [h2, h3]
    · rw [h1, h2]; exact h a
  · rw [Vec5.get_set_ne _ _ hai]
    rcases e with ⟨_, _, h3, h4⟩ | ⟨h1, _, h3⟩ | ⟨_, h2⟩
    · have hfree : ¬ holds a (pc.get a) = true := (h a).not.mp (by simp [h3])
      subst h4
      constructor
      · intro hia; exact absurd (Option.some.inj hia).symm hai
      · intro hh; exact absurd hh hfree
    · have hi : m = some i := (h i).mpr h1
      have hfree : ¬ holds a (pc.get a) = true := by
        intro hh
        have ha : m = some a := (h a).mpr hh
        rw [hi] at ha
        exact hai (Option.some.inj ha).symm
      subst h3
      simp [hfree]
    · rw [h2]; exact h a

/-- The invariant is preserved by any step with the effect `Eff`. -/
theorem Inv.inv_preserved {L : Layout PC} {i : Fin NUM_PHILOSOPHERS} {s s' : State PC}
    (h : Inv L s) (e : Eff L i s s') : Inv L s' := by
  have hother : ∀ a, a ≠ i → s'.pc.get a = s.pc.get a := by
    intro a ha; rw [e.pc_eq, Vec5.get_set_ne _ _ ha]
  refine ⟨e.running.trans h.running, ?_, ?_, ?_, ?_, ?_, ?_⟩
  · intro a
    by_cases ha : a = i
    · subst ha; exact e.pcOk h.running (h.pcOk a)
    · rw [hother a ha]; exact h.pcOk a
  · rw [e.pc_eq]; exact h.display.owner_preserved e.display
  · rw [e.pc_eq]; exact h.arbitrator.owner_preserved e.arbitrator
  · intro r; rw [e.pc_eq]; exact (h.chop r).owner_preserved (e.chop r)
  · intro a
    by_cases ha : a = i
    · subst ha; exact e.states_self (h.state a)
    · rw [hother a ha, e.states_other a ha]; exact h.state a
  · intro r
    rcases e.cur r with h1 | ⟨h1, h2⟩ | ⟨h1, h2⟩
    · exact Or.inl h1
    · exact Or.inr ⟨i, h1, h2⟩
    · rcases h.cur r with h3 | ⟨a, h3, h4⟩
      · exact Or.inl (h1.trans h3)
      · refine Or.inr ⟨a, h1.trans h3, ?_⟩
        by_cases ha : a = i
        · subst ha; exact h2 h4
        · rw [hother a ha]; exact h4

/-- The invariant holds in the initial state. -/
theorem Inv.initial {L : Layout PC} (start : PC)
    (hpc : ∀ a, L.pcOk a start = true) (hl : L.holdsLeft start = false)
    (hr : L.holdsRight start = false) (hd : L.holdsDisplay start = false)
    (ha : L.holdsArbitrator start = false)
    (hst : L.stateOk start PhilosopherState.THINKING = true) :
    Inv L (State.initial start) := by
  refine ⟨rfl, ?_, ?_, ?_, ?_, ?_, ?_⟩
  · intro a; simpa [State.initial] using hpc a
  · intro a; simp [State.initial, hd]
  · intro a; simp [State.initial, ha]
  · intro r a; simp [State.initial, Layout.holdsChop, hl, hr]
  · intro a; simpa [State.initial] using hst
  · intro r; left; simp [State.initial]

/-- The invariant holds in every reachable state. -/
theorem Inv.of_reachable {L : Layout PC}
    {step : Fin NUM_PHILOSOPHERS → State PC → Option (State PC)} {init : State PC}
    (h0 : Inv L init)
    (heff : ∀ i s s', step i s = some s' → Eff L i s s')
    {s : State PC} (h : Reachable step init s) : Inv L s := by
  induction h with
  | init => exact h0
  | step i _ hs ih => exact ih.inv_preserved (heff i _ _ hs)

theorem Reachable.trans {step : Fin NUM_PHILOSOPHERS → State PC → Option (State PC)}
    {a b c : State PC} (h1 : Reachable step a b) (h2 : Reachable step b c) :
    Reachable step a c := by
  induction h2 with
  | init => exact h1
  | step i _ hs ih => exact Reachable.step i ih hs

/-- The state a schedule runs to is reachable. -/
theorem Reachable.of_runSchedule {step : Fin NUM_PHILOSOPHERS → State PC → Option (State PC)}
    (l : List (Fin NUM_PHILOSOPHERS)) {a b : State PC} (h : runSchedule step l a = some b) :
    Reachable step a b := by
  induction l generalizing a with
  | nil =>
    simp only [runSchedule, Option.some.injEq] at h
    subst h; exact Reachable.init
  | cons i rest ih =>
    simp only [runSchedule] at h
    cases hs : step i a with
    | none => simp [hs] at h
    | some a' =>
      simp only [hs] at h
      exact Reachable.trans (Reachable.step i Reachable.init hs) (ih h)

theorem runSchedule_append (step : Fin NUM_PHILOSOPHERS → State PC → Option (State PC))
    (l1 l2 : List (Fin NUM_PHILOSOPHERS)) (s : State PC) :
    runSchedule step (l1 ++ l2) s = (runSchedule step l1 s).bind (runSchedule step l2) := by
  induction l1 generalizing s with
  | nil => rfl
  | cons i rest ih =>
    simp only [List.cons_append, runSchedule]
    cases step i s with
    | none => rfl
    | some s' => exact ih s'

/-- Every initial part of a schedule that runs, runs. -/
theorem runSchedule_prefix (step : Fin NUM_PHILOSOPHERS → State PC → Option (State PC))
    (l1 l2 : List (Fin NUM_PHILOSOPHERS)) (s s' : State PC)
    (h : runSchedule step (l1 ++ l2) s = some s') :
    ∃ s1, runSchedule step l1 s = some s1 ∧ runSchedule step l2 s1 = some s' := by
  rw [runSchedule_append] at h
  cases h1 : runSchedule step l1 s with
  | none => rw [h1] at h; exact absurd h (by simp)
  | some s1 => rw [h1] at h; exact ⟨s1, rfl, h⟩

end Generic

/-! ## Every step of every variant has the effect the layout describes -/

namespace DeadlockVersion

set_option maxHeartbeats 1000000 in
/-- Every step of `DeadlockVersion::philosophize` has the effect its layout describes. -/
theorem deadlock_eff (i : Fin NUM_PHILOSOPHERS) (s s' : State PC) (hs : philosophize i s = some s') :
    Eff layout i s s' := by
  unfold philosophize at hs
  split at hs <;> (try split at hs) <;> cases hs <;>
    constructor <;>
    try simp [layout, holdsLeft, holdsRight, holdsDisplay, curLeft, curRight, stateOk, OwnerEff,
      Layout.holdsChop, Layout.curOk, Vec5.get_set, left, *]
  all_goals
    first
    | (intro a h1 h2; exact absurd h2 h1)
    | (intro r
       have hr := right_ne i
       by_cases h1 : r = i <;> by_cases h2 : r = right i <;>
         simp_all [left, eq_comm])

theorem deadlock_inv_init : Inv layout init :=
  Inv.initial _ (by intro a; rfl) rfl rfl rfl rfl rfl

/-- The invariant holds in every reachable state of `DeadlockVersion`. -/
theorem deadlock_inv_of_reachable {s : State PC} (h : Reachable philosophize init s) : Inv layout s :=
  Inv.of_reachable deadlock_inv_init deadlock_eff h

end DeadlockVersion

namespace StarvationVersion

set_option maxHeartbeats 2000000 in
/-- Every step of `StarvationVersion::philosophize` has the effect its layout describes. -/
theorem starvation_eff (i : Fin NUM_PHILOSOPHERS) (s s' : State PC) (hs : philosophize i s = some s') :
    Eff layout i s s' := by
  unfold philosophize at hs
  split at hs <;> (try split at hs) <;> cases hs <;> (try subst_vars) <;>
    constructor <;>
    try simp [layout, holdsLeft, holdsRight, holdsDisplay, curLeft, curRight, stateOk, pcOk,
      OwnerEff, Layout.holdsChop, Layout.curOk, Vec5.get_set, left, *]
  all_goals
    first
    | (intro a h1 h2; exact absurd h2 h1)
    | (intro h; simp [h])
    | (intro r
       have hr := right_ne i
       by_cases h1 : r = i <;> by_cases h2 : r = right i <;>
         simp_all [left, eq_comm])

theorem starvation_inv_init : Inv layout init :=
  Inv.initial _ (by intro a; rfl) rfl rfl rfl rfl rfl

/-- The invariant holds in every reachable state of `StarvationVersion`. -/
theorem starvation_inv_of_reachable {s : State PC} (h : Reachable philosophize init s) : Inv layout s :=
  Inv.of_reachable starvation_inv_init starvation_eff h

end StarvationVersion

namespace CorrectVersion

set_option maxHeartbeats 1000000 in
/-- Every step of `CorrectVersion::philosophize` has the effect its layout describes. -/
theorem correct_eff (i : Fin NUM_PHILOSOPHERS) (s s' : State PC) (hs : philosophize i s = some s') :
    Eff layout i s s' := by
  unfold philosophize at hs
  split at hs <;> (try split at hs) <;> cases hs <;>
    constructor <;>
    try simp [layout, holdsLeft, holdsRight, holdsDisplay, holdsArbitrator, curLeft, curRight,
      stateOk, OwnerEff, Layout.holdsChop, Layout.curOk, Vec5.get_set, left, *]
  all_goals
    first
    | (intro a h1 h2; exact absurd h2 h1)
    | (intro r
       have hr := right_ne i
       by_cases h1 : r = i <;> by_cases h2 : r = right i <;>
         simp_all [left, eq_comm])

theorem correct_inv_init : Inv layout init :=
  Inv.initial _ (by intro a; rfl) rfl rfl rfl rfl rfl

/-- The invariant holds in every reachable state of `CorrectVersion`. -/
theorem correct_inv_of_reachable {s : State PC} (h : Reachable philosophize init s) : Inv layout s :=
  Inv.of_reachable correct_inv_init correct_eff h

end CorrectVersion

/-! ## Consequences of the invariant -/

section Generic
variable {PC : Type}

/-- Mutual exclusion on the chopsticks follows from the invariant. -/
theorem Inv.chopstickExclusion {L : Layout PC} {s : State PC} (h : Inv L s) :
    ChopstickExclusion L s := by
  intro r
  have hmem : ∀ a, a ∈ L.holders s r ↔ s.chopsticks.get r = some a := by
    intro a
    simp only [Layout.holders, Finset.mem_filter, Finset.mem_univ, true_and]
    exact (h.chop r a).symm
  refine ⟨Finset.card_le_one.mpr ?_, hmem⟩
  intro a ha b hb
  have h1 := (hmem a).mp ha
  have h2 := (hmem b).mp hb
  rw [h1] at h2
  exact Option.some.inj h2

/-- A thread outside every lock..unlock range owns no mutex. -/
theorem Inv.holdsNothing {L : Layout PC} {s : State PC} (h : Inv L s) (a : Fin NUM_PHILOSOPHERS)
    (hl : L.holdsLeft (s.pc.get a) = false) (hr : L.holdsRight (s.pc.get a) = false)
    (hd : L.holdsDisplay (s.pc.get a) = false) (ha : L.holdsArbitrator (s.pc.get a) = false) :
    HoldsNothing s a := by
  refine ⟨?_, ?_, ?_⟩
  · intro r hc
    have := (h.chop r a).mp hc
    simp [Layout.holdsChop, hl, hr] at this
  · intro hc
    have := (h.arbitrator a).mp hc
    simp [ha] at this
  · intro hc
    have := (h.display a).mp hc
    simp [hd] at this

/-- The holder metadata is `-1` or the id of an adjacent thread that is not `THINKING`. -/
theorem Inv.holderMetadataOk {L : Layout PC} {s : State PC} (h : Inv L s)
    (htable : ∀ p, (L.curLeft p = true ∨ L.curRight p = true) →
      L.stateOk p PhilosopherState.THINKING = false)
    (r : Fin NUM_PHILOSOPHERS) : HolderMetadataOk s r := by
  rcases h.cur r with h1 | ⟨a, h1, h2⟩
  · exact Or.inl h1
  · refine Or.inr ⟨a, h1, ?_, ?_⟩
    · have hcur : L.curLeft (s.pc.get a) = true ∨ L.curRight (s.pc.get a) = true := by
        simp only [Layout.curOk, Bool.or_eq_true, Bool.and_eq_true] at h2
        rcases h2 with ⟨_, h3⟩ | ⟨_, h3⟩
        · exact Or.inl h3
        · exact Or.inr h3
      have hne := htable _ hcur
      have hst := h.state a
      cases hs : s.states.get a with
      | THINKING => rw [hs, hne] at hst; exact absurd hst (by decide)
      | HUNGRY => exact Or.inr rfl
      | EATING => exact Or.inl rfl
    · simp only [Layout.curOk, Bool.or_eq_true, Bool.and_eq_true, decide_eq_true_eq] at h2
      rcases h2 with ⟨h3, _⟩ | ⟨h3, _⟩
      · exact Or.inl h3
      · right; rw [← h3]; rfl

end Generic

theorem DeadlockVersion.deadlock_cur_table (p : PC) (h : curLeft p = true ∨ curRight p = true) :
    stateOk p PhilosopherState.THINKING = false := by
  cases p <;> simp_all [curLeft, curRight, stateOk]

theorem StarvationVersion.starvation_cur_table (p : PC) (h : curLeft p = true ∨ curRight p = true) :
    stateOk p PhilosopherState.THINKING = false := by
  cases p <;> simp_all [curLeft, curRight, stateOk]

theorem CorrectVersion.correct_cur_table (p : PC) (h : curLeft p = true ∨ curRight p = true) :
    stateOk p PhilosopherState.THINKING = false := by
  cases p <;> simp_all [curLeft, curRight, stateOk]

/-! ## Concrete executions, and which threads have a step -/

namespace DeadlockVersion
theorem run_deadlockSchedule :
    runSchedule philosophize deadlockSchedule init = some deadlocked := by decide
theorem reachable_deadlocked : Reachable philosophize init deadlocked :=
  Reachable.of_runSchedule _ run_deadlockSchedule
end DeadlockVersion

namespace StarvationVersion
theorem run_staleReleaseSchedule :
    runSchedule philosophize staleReleaseSchedule init = some staleRelease := by decide
theorem reachable_staleRelease : Reachable philosophize init staleRelease :=
  Reachable.of_runSchedule _ run_staleReleaseSchedule

/-- A thread inside `display_status` or a `lock_guard` block has a step. -/
theorem starvation_enabled_of_holdsDisplay (a : Fin NUM_PHILOSOPHERS) (s : State PC)
    (h : holdsDisplay (s.pc.get a) = true) : Enabled philosophize a s := by
  unfold Enabled philosophize
  split <;> simp_all [holdsDisplay]

/-- Thread 0 has a step whenever `display_mutex` is free. -/
theorem enabled_zero (s : State PC) (h : Inv layout s) (hd : s.display_mutex = none) :
    Enabled philosophize 0 s := by
  have hpc := h.pcOk 0
  unfold Enabled philosophize
  split <;> (try split) <;> simp_all [layout, pcOk]

theorem starvation_exists_enabled (s : State PC) (h : Inv layout s) : ∃ i, Enabled philosophize i s := by
  cases hd : s.display_mutex with
  | none => exact ⟨0, enabled_zero s h hd⟩
  | some d => exact ⟨d, starvation_enabled_of_holdsDisplay d s ((h.display d).mp hd)⟩

end StarvationVersion

namespace CorrectVersion
theorem run_twoEatingSchedule :
    runSchedule philosophize twoEatingSchedule init = some twoEating := by decide
theorem reachable_twoEating : Reachable philosophize init twoEating :=
  Reachable.of_runSchedule _ run_twoEatingSchedule

theorem holdsArbitrator_of_holdsChop (r a : Fin NUM_PHILOSOPHERS) (p : PC)
    (h : layout.holdsChop r a p = true) : holdsArbitrator p = true := by
  cases p <;> simp_all [Layout.holdsChop, layout, holdsLeft, holdsRight, holdsArbitrator]

/-- Only the owner of the arbitrator owns chopsticks. -/
theorem chop_free_of_arbitrator {s : State PC} (h : Inv layout s) {a : Fin NUM_PHILOSOPHERS}
    (ha : s.arbitrator = some a) (r : Fin NUM_PHILOSOPHERS)
    (hr : layout.holdsChop r a (s.pc.get a) = false) : s.chopsticks.get r = none := by
  cases hc : s.chopsticks.get r with
  | none => rfl
  | some b =>
    have hb := (h.chop r b).mp hc
    have hab : s.arbitrator = some b :=
      (h.arbitrator b).mpr (holdsArbitrator_of_holdsChop r b _ hb)
    rw [ha] at hab
    have : a = b := Option.some.inj hab
    subst this
    rw [hr] at hb
    exact absurd hb (by decide)

theorem correct_enabled_of_holdsDisplay (a : Fin NUM_PHILOSOPHERS) (s : State PC)
    (h : holdsDisplay (s.pc.get a) = true) : Enabled philosophize a s := by
  unfold Enabled philosophize
  split <;> simp_all [holdsDisplay]

/-- The owner of the arbitrator has a step whenever `display_mutex` is free. -/
theorem enabled_of_arbitrator {s : State PC} (h : Inv layout s) {a : Fin NUM_PHILOSOPHERS}
    (ha : s.arbitrator = some a) (hd : s.display_mutex = none) : Enabled philosophize a s := by
  have harb := (h.arbitrator a).mp ha
  have hl := chop_free_of_arbitrator h ha (left a)
  have hr := chop_free_of_arbitrator h ha (right a)
  have hne := right_ne a
  have hne' := (right_ne a).symm
  unfold Enabled philosophize
  split <;> simp_all [layout, holdsArbitrator, Layout.holdsChop, holdsLeft, holdsRight, left]

/-- The owner of the arbitrator is never blocked at a chopstick `lock()`. -/
theorem enabled_at_chopstick {s : State PC} (h : Inv layout s) {a : Fin NUM_PHILOSOPHERS}
    (ha : s.arbitrator = some a) (hp : s.pc.get a = PC.L262 ∨ s.pc.get a = PC.L268) :
    Enabled philosophize a s := by
  have hl := chop_free_of_arbitrator h ha (left a)
  have hr := chop_free_of_arbitrator h ha (right a)
  have hne := right_ne a
  have hne' := (right_ne a).symm
  unfold Enabled philosophize
  rcases hp with hp | hp <;>
    simp_all [layout, Layout.holdsChop, holdsLeft, holdsRight, left]

/-- Any thread has a step when both `display_mutex` and the arbitrator are free. -/
theorem enabled_of_free {s : State PC} (h : Inv layout s) (a : Fin NUM_PHILOSOPHERS)
    (harb : s.arbitrator = none) (hd : s.display_mutex = none) : Enabled philosophize a s := by
  have hpc := h.pcOk a
  have hno : holdsArbitrator (s.pc.get a) = false := by
    cases hh : holdsArbitrator (s.pc.get a) with
    | false => rfl
    | true =>
      have := (h.arbitrator a).mpr hh
      rw [harb] at this
      exact absurd this (by simp)
  unfold Enabled philosophize
  split <;> simp_all [layout, holdsArbitrator]

theorem correct_exists_enabled (s : State PC) (h : Inv layout s) : ∃ i, Enabled philosophize i s := by
  cases hd : s.display_mutex with
  | some d => exact ⟨d, correct_enabled_of_holdsDisplay d s ((h.display d).mp hd)⟩
  | none =>
    cases ha : s.arbitrator with
    | some a => exact ⟨a, enabled_of_arbitrator h ha hd⟩
    | none => exact ⟨0, enabled_of_free h 0 ha hd⟩

end CorrectVersion

theorem CorrectVersion.arbitrator_of_eating (p : CorrectVersion.PC)
    (h : CorrectVersion.stateOk p PhilosopherState.EATING = true) (hp : p ≠ CorrectVersion.PC.L293) :
    CorrectVersion.holdsArbitrator p = true := by
  cases p <;> simp_all [CorrectVersion.stateOk, CorrectVersion.holdsArbitrator]

theorem CorrectVersion.eatingInside_owner {s : State CorrectVersion.PC}
    (h : Inv CorrectVersion.layout s) (i : Fin NUM_PHILOSOPHERS)
    (hi : i ∈ CorrectVersion.eatingInside s) : s.arbitrator = some i := by
  simp only [CorrectVersion.eatingInside, Finset.mem_filter, Finset.mem_univ, true_and] at hi
  have hst := h.state i
  rw [hi.1] at hst
  exact (h.arbitrator i).mpr (CorrectVersion.arbitrator_of_eating _ hst hi.2)

/-! ## Rounds of `StarvationVersion` in which thread 0 never eats -/

namespace StarvationVersion

/-- Every step keeps the meal counters within the range of `int`. -/
theorem meals_range_step {s s' : State PC} {i : Fin NUM_PHILOSOPHERS}
    (hs : philosophize i s = some s')
    (h : ∀ a, INT_MIN ≤ s.meals_eaten.get a ∧ s.meals_eaten.get a ≤ INT_MAX) :
    ∀ a, INT_MIN ≤ s'.meals_eaten.get a ∧ s'.meals_eaten.get a ≤ INT_MAX := by
  intro a
  unfold philosophize at hs
  split at hs <;> (try split at hs) <;> cases hs <;> simp only [Vec5.get_set] <;>
    first
    | exact h a
    | (split
       · exact intIncrement_range _
       · exact h a)

theorem meals_range_of_reachable {s : State PC} (hr : Reachable philosophize init s) :
    ∀ a, INT_MIN ≤ s.meals_eaten.get a ∧ s.meals_eaten.get a ≤ INT_MAX := by
  induction hr with
  | init => intro a; simp [init, State.initial, INT_MIN, INT_MAX]
  | step i _ hs ih => exact meals_range_step hs ih

theorem continueCount_append (l1 l2 : List (Fin NUM_PHILOSOPHERS)) (s s1 : State PC)
    (h : runSchedule philosophize l1 s = some s1) :
    continueCount (l1 ++ l2) s = continueCount l1 s + continueCount l2 s1 := by
  induction l1 generalizing s with
  | nil =>
    simp only [runSchedule, Option.some.injEq] at h
    subst h
    simp [continueCount]
  | cons i rest ih =>
    simp only [List.cons_append, continueCount]
    simp only [runSchedule] at h
    cases hs : philosophize i s with
    | none => simp [hs] at h
    | some s' =>
      simp only [hs] at h
      change _ + continueCount (rest ++ l2) s' = _
      rw [ih s' h, Nat.add_assoc]

theorem starvation_init_eq_betweenMeals :
    init = betweenMeals PhilosopherState.THINKING (Vec5.replicate 0) (Vec5.replicate (-1)) := rfl

/-- One round: thread 1 eats once, thread 0 fails once and is back at the loop test. -/
theorem run_starveRound (st0 : PhilosopherState) (m : Vec5 Int) (l : Vec5 Int) :
    runSchedule philosophize starveRound (betweenMeals st0 m l) =
      some (betweenMeals PhilosopherState.HUNGRY (m.set 1 (intIncrement (m.get 1)))
        ((l.set 1 1).set 2 1)) := rfl

theorem continueCount_starveRound (st0 : PhilosopherState) (m : Vec5 Int) (l : Vec5 Int) :
    continueCount starveRound (betweenMeals st0 m l) = 1 := by
  have h : continueCount starveRound (betweenMeals st0 m l) = continueCount starveRound init :=
    rfl
  rw [h]; decide

/-- As long as the counter of thread 1 does not pass `INT_MAX`, `k` rounds add `k` to it
and thread 0 executes `continue` `k` times. -/
theorem run_starveSchedule (k : Nat) (st0 : PhilosopherState) (m : Vec5 Int) (l : Vec5 Int)
    (h1 : INT_MIN ≤ m.get 1) (h2 : m.get 1 + (k : Int) ≤ INT_MAX) :
    ∃ st0' l', runSchedule philosophize (starveSchedule k) (betweenMeals st0 m l) =
        some (betweenMeals st0' (m.set 1 (m.get 1 + (k : Int))) l') ∧
      continueCount (starveSchedule k) (betweenMeals st0 m l) = k := by
  induction k generalizing st0 m l with
  | zero =>
    refine ⟨st0, l, ?_, rfl⟩
    have : m.set 1 (m.get 1 + ((0 : Nat) : Int)) = m := by
      cases m; simp [Vec5.set, Vec5.get]
    rw [this]; rfl
  | succ k ih =>
    have hlt : m.get 1 < INT_MAX := by
      have : (0 : Int) ≤ (k : Int) := Int.ofNat_nonneg k
      push_cast at h2
      omega
    have hinc := intIncrement_eq (m.get 1) h1 hlt
    obtain ⟨st0', l', h3, h4⟩ := ih PhilosopherState.HUNGRY (m.set 1 (intIncrement (m.get 1)))
      ((l.set 1 1).set 2 1)
      (by rw [Vec5.get_set_same, hinc]; omega)
      (by rw [Vec5.get_set_same, hinc]; push_cast at h2; omega)
    refine ⟨st0', l', ?_, ?_⟩
    · simp only [starveSchedule, runSchedule_append, run_starveRound, Option.some_bind, h3]
      rw [Vec5.set_set, Vec5.get_set_same, hinc]
      have : m.get 1 + 1 + (k : Int) = m.get 1 + ((k + 1 : Nat) : Int) := by
        push_cast; ring
      rw [this]
    · simp only [starveSchedule]
      rw [continueCount_append _ _ _ _ (run_starveRound st0 m l), continueCount_starveRound, h4]
      omega

end StarvationVersion

/-! ## Liveness of `CorrectVersion` when enabled threads are served -/

section Turns
variable {PC : Type}

theorem runTurns_cons (step : Fin NUM_PHILOSOPHERS → State PC → Option (State PC))
    (i : Fin NUM_PHILOSOPHERS) (rest : List (Fin NUM_PHILOSOPHERS)) (s : State PC) :
    runTurns step (i :: rest) s = runTurns step rest (schedStep step i s) := by
  simp only [runTurns, schedStep]
  cases step i s <;> rfl

theorem runTurns_append (step : Fin NUM_PHILOSOPHERS → State PC → Option (State PC))
    (l1 l2 : List (Fin NUM_PHILOSOPHERS)) (s : State PC) :
    runTurns step (l1 ++ l2) s = runTurns step l2 (runTurns step l1 s) := by
  induction l1 generalizing s with
  | nil => rfl
  | cons i rest ih => rw [List.cons_append, runTurns_cons, runTurns_cons]; exact ih _

/-- The states after the first `n` turns of any schedule form an execution. -/
theorem isScheduling_runTurns (step : Fin NUM_PHILOSOPHERS → State PC → Option (State PC))
    (init : State PC) (who : Nat → Fin NUM_PHILOSOPHERS) :
    IsScheduling step init (fun n => runTurns step ((List.range n).map who) init) who := by
  refine ⟨rfl, fun n => ?_⟩
  show runTurns step ((List.range (n + 1)).map who) init = _
  rw [List.range_succ, List.map_append, runTurns_append]
  exact runTurns_cons step (who n) [] _

/-- A turn of a thread that has a step is that step. -/
theorem schedStep_of_enabled {step : Fin NUM_PHILOSOPHERS → State PC → Option (State PC)}
    {i : Fin NUM_PHILOSOPHERS} {s : State PC} (h : Enabled step i s) :
    step i s = some (schedStep step i s) := by
  unfold Enabled at h
  unfold schedStep
  cases hs : step i s with
  | none => rw [hs] at h; exact absurd h (by simp)
  | some s' => rfl

/-- A turn of a thread that has no step changes nothing. -/
theorem schedStep_of_blocked {step : Fin NUM_PHILOSOPHERS → State PC → Option (State PC)}
    {i : Fin NUM_PHILOSOPHERS} {s : State PC} (h : ¬ Enabled step i s) :
    schedStep step i s = s := by
  unfold Enabled at h
  unfold schedStep
  cases hs : step i s with
  | none => rfl
  | some s' => rw [hs] at h; exact absurd rfl h

end Turns

namespace CorrectVersion
open PC

/-- A step of the owner of `display_mutex` releases it or brings the release nearer. -/
theorem display_progress {s s' : State PC} {a : Fin NUM_PHILOSOPHERS}
    (h : holdsDisplay (s.pc.get a) = true) (hd : s.display_mutex = some a)
    (hs : philosophize a s = some s') :
    s'.display_mutex = none ∨
      (s'.display_mutex = some a ∧
        displayRemaining (s'.pc.get a) < displayRemaining (s.pc.get a)) := by
  unfold philosophize at hs
  split at hs <;> simp_all [holdsDisplay] <;> subst hs <;> simp [displayRemaining, *]

theorem displayRemaining_pos (p : PC) (h : holdsDisplay p = true) : 0 < displayRemaining p := by
  cases p <;> simp_all [holdsDisplay, displayRemaining]

theorem displayRemaining_le (p : PC) : displayRemaining p ≤ 5 := by
  cases p <;> simp [displayRemaining]

/-- A step of the owner of the arbitrator releases it or brings the release nearer. -/
theorem arbitrator_progress {s s' : State PC} {a : Fin NUM_PHILOSOPHERS}
    (h : holdsArbitrator (s.pc.get a) = true) (hd : s.arbitrator = some a)
    (hs : philosophize a s = some s') :
    s'.arbitrator = none ∨
      (s'.arbitrator = some a ∧
        arbitratorRemaining (s'.pc.get a) < arbitratorRemaining (s.pc.get a)) := by
  unfold philosophize at hs
  split at hs <;> (try split at hs) <;> simp_all [holdsArbitrator] <;> subst hs <;>
    simp [arbitratorRemaining, *]

theorem arbitratorRemaining_pos (p : PC) (h : holdsArbitrator p = true) :
    0 < arbitratorRemaining p := by
  cases p <;> simp_all [holdsArbitrator, arbitratorRemaining]

theorem arbitratorRemaining_le (p : PC) : arbitratorRemaining p ≤ 24 := by
  cases p <;> simp [arbitratorRemaining]

theorem stepsToMeal_le (p : PC) : stepsToMeal p ≤ 32 := by
  cases p <;> simp [stepsToMeal]

/-- The step at line 276 is `meals_eaten[id]++`. -/
theorem meal_step {s s' : State PC} {a : Fin NUM_PHILOSOPHERS}
    (h : s.pc.get a = L276) (hs : philosophize a s = some s') :
    s'.meals_eaten.get a = intIncrement (s.meals_eaten.get a) := by
  unfold philosophize at hs
  simp only [h] at hs
  cases hs
  simp

/-- Every other step brings line 276 nearer. -/
theorem toward_meal {s s' : State PC} {a : Fin NUM_PHILOSOPHERS}
    (hr : s.running = true) (h : s.pc.get a ≠ L276)
    (hs : philosophize a s = some s') :
    stepsToMeal (s'.pc.get a) < stepsToMeal (s.pc.get a) := by
  unfold philosophize at hs
  split at hs <;> (try split at hs) <;> simp_all <;> subst hs <;> simp [stepsToMeal, *]

/-- Only the step at line 276 of thread `a` changes `meals_eaten[a]`. -/
theorem meals_frame {s s' : State PC} {i : Fin NUM_PHILOSOPHERS}
    (hs : philosophize i s = some s') (a : Fin NUM_PHILOSOPHERS)
    (h : i ≠ a ∨ s.pc.get a ≠ L276) :
    s'.meals_eaten.get a = s.meals_eaten.get a := by
  unfold philosophize at hs
  split at hs <;> (try split at hs) <;> cases hs <;>
    first
    | rfl
    | (simp only [Vec5.get_set]
       split
       · rename_i hai
         subst hai
         simp_all
       · rfl)

theorem enabled_at_arbitrator_lock {s : State PC} {a : Fin NUM_PHILOSOPHERS}
    (h : s.pc.get a = L260) (harb : s.arbitrator = none) : Enabled philosophize a s := by
  unfold Enabled philosophize
  simp [h, harb]

theorem blocked_at_arbitrator_lock {s : State PC} {a b : Fin NUM_PHILOSOPHERS}
    (h : s.pc.get a = L260) (harb : s.arbitrator = some b) : ¬ Enabled philosophize a s := by
  unfold Enabled philosophize
  simp [h, harb]

theorem enabled_outside {s : State PC} (h : Inv layout s) {a : Fin NUM_PHILOSOPHERS}
    (hd : s.display_mutex = none) (ha : holdsArbitrator (s.pc.get a) = false)
    (hp : s.pc.get a ≠ L260) : Enabled philosophize a s := by
  have hpc := h.pcOk a
  unfold Enabled philosophize
  split <;> simp_all [layout, holdsArbitrator]

section Execution
variable {σ : Nat → State PC} {who : Nat → Fin NUM_PHILOSOPHERS}

/-- A turn of a thread that has a step is that step. -/
theorem scheduling_step (h : IsScheduling philosophize init σ who) {m : Nat}
    {a : Fin NUM_PHILOSOPHERS} (hw : who m = a) (he : Enabled philosophize a (σ m)) :
    philosophize a (σ m) = some (σ (m + 1)) := by
  rw [h.2 m, hw]
  exact schedStep_of_enabled he

theorem scheduling_reachable (h : IsScheduling philosophize init σ who) (n : Nat) :
    Reachable philosophize init (σ n) := by
  induction n with
  | zero => rw [h.1]; exact Reachable.init
  | succ n ih =>
    by_cases he : Enabled philosophize (who n) (σ n)
    · exact Reachable.step (who n) ih (scheduling_step h rfl he)
    · rw [h.2 n, schedStep_of_blocked he]; exact ih

theorem scheduling_inv (h : IsScheduling philosophize init σ who) (n : Nat) :
    Inv layout (σ n) :=
  correct_inv_of_reachable (scheduling_reachable h n)

/-- Only the steps of thread `a` move the program counter of thread `a`. -/
theorem pc_const (h : IsScheduling philosophize init σ who) (a : Fin NUM_PHILOSOPHERS)
    (n m : Nat) (hnm : n ≤ m)
    (hno : ∀ k, n ≤ k → k < m → ¬ (who k = a ∧ Enabled philosophize a (σ k))) :
    (σ m).pc.get a = (σ n).pc.get a := by
  induction m, hnm using Nat.le_induction with
  | base => rfl
  | succ k hnk ih =>
    have ih' := ih (fun j hj hjk => hno j hj (Nat.lt_succ_of_lt hjk))
    by_cases he : Enabled philosophize (who k) (σ k)
    · have hwa : who k ≠ a := fun hw => hno k hnk (Nat.lt_succ_self k) ⟨hw, hw ▸ he⟩
      have e := correct_eff _ _ _ (scheduling_step h rfl he)
      rw [e.pc_eq, Vec5.get_set_ne _ _ (Ne.symm hwa)]
      exact ih'
    · rw [h.2 k, schedStep_of_blocked he]
      exact ih'

/-- A thread that is given a turn with a step at or after time `n` executes, the first time
it is, the statement it is at in `σ n`. -/
theorem first_step (h : IsScheduling philosophize init σ who) (a : Fin NUM_PHILOSOPHERS)
    (n : Nat) (hex : ∃ m, n ≤ m ∧ who m = a ∧ Enabled philosophize a (σ m)) :
    NextStep philosophize σ who a n := by
  classical
  have hm := Nat.find_spec hex
  refine ⟨Nat.find hex, hm.1, hm.2.1, hm.2.2, pc_const h a n _ hm.1 ?_⟩
  intro k hnk hk hw
  exact Nat.find_min hex hk ⟨hnk, hw.1, hw.2⟩

theorem nextStep_of_enabled (h : IsScheduling philosophize init σ who)
    (hf : FairlyServed philosophize σ who) (a : Fin NUM_PHILOSOPHERS) (n : Nat)
    (he : Enabled philosophize a (σ n)) : NextStep philosophize σ who a n :=
  first_step h a n (hf n a he)

/-- If thread `a` has a step at some later time provided it has not moved until then, it
takes its next step. -/
theorem nextStep_of_enabled_later (h : IsScheduling philosophize init σ who)
    (hf : FairlyServed philosophize σ who) (a : Fin NUM_PHILOSOPHERS) (n m : Nat)
    (hnm : n ≤ m)
    (he : (σ m).pc.get a = (σ n).pc.get a → Enabled philosophize a (σ m)) :
    NextStep philosophize σ who a n := by
  by_cases hex : ∃ k, n ≤ k ∧ k < m ∧ who k = a ∧ Enabled philosophize a (σ k)
  · obtain ⟨k, hnk, _, hw, hen⟩ := hex
    exact first_step h a n ⟨k, hnk, hw, hen⟩
  · have hpc : (σ m).pc.get a = (σ n).pc.get a :=
      pc_const h a n m hnm (fun k hnk hkm hw => hex ⟨k, hnk, hkm, hw.1, hw.2⟩)
    obtain ⟨m', hm', hw, hen, hpc'⟩ := nextStep_of_enabled h hf a m (he hpc)
    exact ⟨m', le_trans hnm hm', hw, hen, hpc'.trans hpc⟩

theorem eventually_display_free_aux (h : IsScheduling philosophize init σ who)
    (hf : FairlyServed philosophize σ who) (k : Nat) :
    ∀ n, (∀ d, (σ n).display_mutex = some d → displayRemaining ((σ n).pc.get d) ≤ k) →
      ∃ m, n ≤ m ∧ (σ m).display_mutex = none := by
  induction k with
  | zero =>
    intro n hk
    cases hd : (σ n).display_mutex with
    | none => exact ⟨n, le_rfl, hd⟩
    | some d =>
      have h1 := hk d hd
      have h2 := displayRemaining_pos _ (((scheduling_inv h n).display d).mp hd)
      omega
  | succ k ih =>
    intro n hk
    cases hd : (σ n).display_mutex with
    | none => exact ⟨n, le_rfl, hd⟩
    | some d =>
      have hh : holdsDisplay ((σ n).pc.get d) = true := ((scheduling_inv h n).display d).mp hd
      obtain ⟨m, hnm, hw, hen, hpc⟩ := nextStep_of_enabled h hf d n
        (correct_enabled_of_holdsDisplay d _ hh)
      have hh' : holdsDisplay ((σ m).pc.get d) = true := by rw [hpc]; exact hh
      have hd' : (σ m).display_mutex = some d := ((scheduling_inv h m).display d).mpr hh'
      have hs := scheduling_step h hw hen
      rcases display_progress hh' hd' hs with h1 | ⟨h1, h2⟩
      · exact ⟨m + 1, by omega, h1⟩
      · obtain ⟨m', hm', hfree⟩ := ih (m + 1) (by
          intro d' hd''
          rw [h1] at hd''
          cases hd''
          rw [hpc] at h2
          have := hk d hd
          omega)
        exact ⟨m', by omega, hfree⟩

/-- `display_mutex` is free again and again. -/
theorem eventually_display_free (h : IsScheduling philosophize init σ who)
    (hf : FairlyServed philosophize σ who) (n : Nat) :
    ∃ m, n ≤ m ∧ (σ m).display_mutex = none :=
  eventually_display_free_aux h hf 5 n (fun _ _ => displayRemaining_le _)

/-- The owner of the arbitrator takes its next step. -/
theorem nextStep_of_owner (h : IsScheduling philosophize init σ who)
    (hf : FairlyServed philosophize σ who) (a : Fin NUM_PHILOSOPHERS) (n : Nat)
    (ha : holdsArbitrator ((σ n).pc.get a) = true) : NextStep philosophize σ who a n := by
  obtain ⟨m, hnm, hfree⟩ := eventually_display_free h hf n
  refine nextStep_of_enabled_later h hf a n m hnm (fun hpc => ?_)
  have ha' : (σ m).arbitrator = some a :=
    ((scheduling_inv h m).arbitrator a).mpr (by rw [hpc]; exact ha)
  exact enabled_of_arbitrator (scheduling_inv h m) ha' hfree

theorem eventually_arbitrator_free_aux (h : IsScheduling philosophize init σ who)
    (hf : FairlyServed philosophize σ who) (k : Nat) :
    ∀ n, (∀ d, (σ n).arbitrator = some d → arbitratorRemaining ((σ n).pc.get d) ≤ k) →
      ∃ m, n ≤ m ∧ (σ m).arbitrator = none := by
  induction k with
  | zero =>
    intro n hk
    cases hd : (σ n).arbitrator with
    | none => exact ⟨n, le_rfl, hd⟩
    | some d =>
      have h1 := hk d hd
      have h2 := arbitratorRemaining_pos _ (((scheduling_inv h n).arbitrator d).mp hd)
      omega
  | succ k ih =>
    intro n hk
    cases hd : (σ n).arbitrator with
    | none => exact ⟨n, le_rfl, hd⟩
    | some d =>
      have hh : holdsArbitrator ((σ n).pc.get d) = true :=
        ((scheduling_inv h n).arbitrator d).mp hd
      obtain ⟨m, hnm, hw, hen, hpc⟩ := nextStep_of_owner h hf d n hh
      have hh' : holdsArbitrator ((σ m).pc.get d) = true := by rw [hpc]; exact hh
      have hd' : (σ m).arbitrator = some d := ((scheduling_inv h m).arbitrator d).mpr hh'
      have hs := scheduling_step h hw hen
      rcases arbitrator_progress hh' hd' hs with h1 | ⟨h1, h2⟩
      · exact ⟨m + 1, by omega, h1⟩
      · obtain ⟨m', hm', hfree⟩ := ih (m + 1) (by
          intro d' hd''
          rw [h1] at hd''
          cases hd''
          rw [hpc] at h2
          have := hk d hd
          omega)
        exact ⟨m', by omega, hfree⟩

/-- The arbitrator is free again and again. -/
theorem eventually_arbitrator_free (h : IsScheduling philosophize init σ who)
    (hf : FairlyServed philosophize σ who) (n : Nat) :
    ∃ m, n ≤ m ∧ (σ m).arbitrator = none :=
  eventually_arbitrator_free_aux h hf 24 n (fun _ _ => arbitratorRemaining_le _)

/-- Every thread takes its next step. -/
theorem nextStep_always (h : IsScheduling philosophize init σ who)
    (hf : FairlyServed philosophize σ who) (a : Fin NUM_PHILOSOPHERS) (n : Nat) :
    NextStep philosophize σ who a n := by
  cases ha : holdsArbitrator ((σ n).pc.get a) with
  | true => exact nextStep_of_owner h hf a n ha
  | false =>
    by_cases hp : (σ n).pc.get a = L260
    · obtain ⟨m, hnm, hfree⟩ := eventually_arbitrator_free h hf n
      exact nextStep_of_enabled_later h hf a n m hnm
        (fun hpc => enabled_at_arbitrator_lock (hpc.trans hp) hfree)
    · obtain ⟨m, hnm, hfree⟩ := eventually_display_free h hf n
      exact nextStep_of_enabled_later h hf a n m hnm
        (fun hpc => enabled_outside (scheduling_inv h m) hfree (by rw [hpc]; exact ha)
          (by rw [hpc]; exact hp))

theorem eventually_at_meal_aux (h : IsScheduling philosophize init σ who)
    (hf : FairlyServed philosophize σ who) (a : Fin NUM_PHILOSOPHERS) (k : Nat) :
    ∀ n, stepsToMeal ((σ n).pc.get a) ≤ k →
      ∃ m, n ≤ m ∧ who m = a ∧ (σ m).pc.get a = L276 := by
  induction k with
  | zero =>
    intro n hk
    obtain ⟨m, hnm, hw, hen, hpc⟩ := nextStep_always h hf a n
    by_cases hp : (σ m).pc.get a = L276
    · exact ⟨m, hnm, hw, hp⟩
    · have := toward_meal (scheduling_inv h m).running hp (scheduling_step h hw hen)
      rw [hpc] at this
      omega
  | succ k ih =>
    intro n hk
    obtain ⟨m, hnm, hw, hen, hpc⟩ := nextStep_always h hf a n
    by_cases hp : (σ m).pc.get a = L276
    · exact ⟨m, hnm, hw, hp⟩
    · have hlt := toward_meal (scheduling_inv h m).running hp (scheduling_step h hw hen)
      rw [hpc] at hlt
      obtain ⟨m', hm', hw', hp'⟩ := ih (m + 1) (by omega)
      exact ⟨m', by omega, hw', hp'⟩

/-- Every thread executes `meals_eaten[id]++` again and again. -/
theorem eventually_meal (h : IsScheduling philosophize init σ who)
    (hf : FairlyServed philosophize σ who) (a : Fin NUM_PHILOSOPHERS) (n : Nat) :
    ∃ m, n ≤ m ∧ who m = a ∧ (σ m).pc.get a = L276 ∧
      (σ (m + 1)).meals_eaten.get a = intIncrement ((σ m).meals_eaten.get a) := by
  obtain ⟨m, hnm, hw, hp⟩ := eventually_at_meal_aux h hf a 32 n (stepsToMeal_le _)
  have he : Enabled philosophize a (σ m) := by
    unfold Enabled philosophize
    simp [hp]
  exact ⟨m, hnm, hw, hp, meal_step hp (scheduling_step h hw he)⟩

end Execution

/-! ## An execution of `CorrectVersion` in which waiting threads are served -/

/-- The first 20 turns: every thread runs lines 256-258 and waits at line 260. -/
theorem run_contend_start :
    runTurns philosophize ((List.range 20).map contend) init =
      allWaiting (Vec5.replicate 0) (Vec5.replicate (-1)) := by decide

/-- One round of thread `a`: it eats once and all threads wait at line 260 again. -/
theorem run_contendRound (a : Fin NUM_PHILOSOPHERS) (m : Vec5 Int) (l : Vec5 Int) :
    runTurns philosophize (contendRound a) (allWaiting m l) =
      allWaiting (m.set a (intIncrement (m.get a)))
        ((l.set (left a) (a.val : Int)).set (right a) (a.val : Int)) := by
  fin_cases a <;> rfl

theorem contend_block (t j : Nat) (hj : j < 34) :
    contend (20 + 34 * t + j) =
      if j = 10 then right ⟨t % NUM_PHILOSOPHERS, Nat.mod_lt _ (by decide)⟩
      else ⟨t % NUM_PHILOSOPHERS, Nat.mod_lt _ (by decide)⟩ := by
  have h1 : (20 + 34 * t + j - 20) % 34 = j := by omega
  have h2 : (20 + 34 * t + j - 20) / 34 = t := by omega
  unfold contend
  rw [if_neg (by omega)]
  simp only [h1, h2]

theorem contend_schedule_succ (t : Nat) :
    (List.range (20 + 34 * (t + 1))).map contend =
      (List.range (20 + 34 * t)).map contend ++
        contendRound ⟨t % NUM_PHILOSOPHERS, Nat.mod_lt _ (by decide)⟩ := by
  have h : 20 + 34 * (t + 1) = 20 + 34 * t + 34 := by ring
  rw [h, List.range_add, List.map_append, List.map_map]
  congr 1
  unfold contendRound
  apply List.map_congr_left
  intro j hj
  exact contend_block t j (List.mem_range.mp hj)

/-- Between rounds all threads wait at line 260 and nothing is held. -/
theorem contendState_round (t : Nat) :
    ∃ m l, contendState (20 + 34 * t) = allWaiting m l := by
  induction t with
  | zero => exact ⟨_, _, run_contend_start⟩
  | succ t ih =>
    obtain ⟨m, l, h⟩ := ih
    unfold contendState at h ⊢
    rw [contend_schedule_succ, runTurns_append, h, run_contendRound]
    exact ⟨_, _, rfl⟩

theorem contend_scheduling : IsScheduling philosophize init contendState contend :=
  isScheduling_runTurns philosophize init contend

/-- Along `contend` every thread is again and again given a turn while it waits at
`arbitrator.lock()` with the arbitrator free. -/
theorem contend_served : FairlyServed philosophize contendState contend := by
  intro n a _
  have h5 : a.val < 5 := a.isLt
  have hmod : (5 * n + a.val) % NUM_PHILOSOPHERS = a.val := by
    show (5 * n + a.val) % 5 = a.val
    omega
  obtain ⟨m, l, h⟩ := contendState_round (5 * n + a.val)
  refine ⟨20 + 34 * (5 * n + a.val), by omega, ?_, ?_⟩
  · have := contend_block (5 * n + a.val) 0 (by omega)
    rw [Nat.add_zero] at this
    rw [this, if_neg (by omega)]
    exact Fin.ext hmod
  · rw [h]
    exact enabled_at_arbitrator_lock (by simp [allWaiting]) rfl

/-- In the middle of every round of `contend` a thread waits at `arbitrator.lock()`, is
given a turn, and is blocked. -/
theorem contend_waits (t : Nat) :
    ¬ Enabled philosophize (contend (20 + 34 * t + 10)) (contendState (20 + 34 * t + 10)) := by
  obtain ⟨m, l, h⟩ := contendState_round t
  have hs : (List.range (20 + 34 * t + 10)).map contend =
      (List.range (20 + 34 * t)).map contend ++
        List.replicate 10 ⟨t % NUM_PHILOSOPHERS, Nat.mod_lt _ (by decide)⟩ := by
    rw [List.range_add, List.map_append, List.map_map]
    congr 1
    rw [List.eq_replicate_iff]
    refine ⟨by simp, ?_⟩
    intro b hb
    simp only [List.mem_map, List.mem_range, Function.comp] at hb
    obtain ⟨j, hj, rfl⟩ := hb
    rw [contend_block t j (by omega), if_neg (by omega)]
  have hw := contend_block t 10 (by omega)
  rw [if_pos rfl] at hw
  rw [hw]
  unfold contendState at h ⊢
  rw [hs, runTurns_append, h]
  generalize (⟨t % NUM_PHILOSOPHERS, Nat.mod_lt _ (by decide)⟩ : Fin NUM_PHILOSOPHERS) = a
  have key : ∃ s, runTurns philosophize (List.replicate 10 a) (allWaiting m l) = s ∧
      s.arbitrator = some a ∧ s.pc.get (right a) = L260 := by
    fin_cases a <;> exact ⟨_, rfl, rfl, rfl⟩
  obtain ⟨s, hs', harb, hpc⟩ := key
  rw [hs']
  exact blocked_at_arbitrator_lock hpc harb

/-! ## An execution of `CorrectVersion` in which thread 0 is scheduled but never eats -/

theorem run_stall_start :
    runTurns philosophize ((List.range 4).map stall) init =
      parked (Vec5.replicate 0) (Vec5.replicate (-1)) := by decide

/-- One round of a thread other than 0 while thread 0 waits at line 260. -/
theorem run_stallRound (a : Fin NUM_PHILOSOPHERS) (ha : a ≠ 0) (m : Vec5 Int) (l : Vec5 Int) :
    runTurns philosophize (stallRound a) (parked m l) =
      parked (m.set a (intIncrement (m.get a)))
        ((l.set (left a) (a.val : Int)).set (right a) (a.val : Int)) := by
  fin_cases a <;> first | exact absurd rfl ha | rfl

/-- After ten steps of its round a thread other than 0 owns the arbitrator, and thread 0 is
still at line 260. -/
theorem run_stallRound_half (a : Fin NUM_PHILOSOPHERS) (ha : a ≠ 0) (m : Vec5 Int)
    (l : Vec5 Int) :
    ∃ s, runTurns philosophize (List.replicate 10 a) (parked m l) = s ∧
      s.arbitrator = some a ∧ s.pc.get 0 = L260 := by
  fin_cases a <;> first | exact absurd rfl ha | exact ⟨_, rfl, rfl, rfl⟩

theorem stall_ne_zero (t : Nat) :
    (⟨t % 4 + 1, Nat.succ_lt_succ (Nat.mod_lt _ (by decide))⟩ : Fin NUM_PHILOSOPHERS) ≠ 0 := by
  intro hc
  exact absurd (congrArg Fin.val hc) (Nat.succ_ne_zero _)

theorem stall_block (t j : Nat) (hj : j < 34) :
    stall (4 + 34 * t + j) =
      if j = 10 then 0 else ⟨t % 4 + 1, Nat.succ_lt_succ (Nat.mod_lt _ (by decide))⟩ := by
  have h1 : (4 + 34 * t + j - 4) % 34 = j := by omega
  have h2 : (4 + 34 * t + j - 4) / 34 = t := by omega
  unfold stall
  rw [if_neg (by omega)]
  simp only [h1, h2]

theorem stall_schedule_succ (t : Nat) :
    (List.range (4 + 34 * (t + 1))).map stall =
      (List.range (4 + 34 * t)).map stall ++
        stallRound ⟨t % 4 + 1, Nat.succ_lt_succ (Nat.mod_lt _ (by decide))⟩ := by
  have h : 4 + 34 * (t + 1) = 4 + 34 * t + 34 := by ring
  rw [h, List.range_add, List.map_append, List.map_map]
  congr 1
  unfold stallRound
  apply List.map_congr_left
  intro j hj
  exact stall_block t j (List.mem_range.mp hj)

/-- Between rounds thread 0 waits at line 260, nothing is held, and `meals_eaten[0]` is
`0`. -/
theorem stallState_round (t : Nat) :
    ∃ m l, stallState (4 + 34 * t) = parked m l ∧ m.get 0 = 0 := by
  induction t with
  | zero => exact ⟨Vec5.replicate 0, Vec5.replicate (-1), run_stall_start, rfl⟩
  | succ t ih =>
    obtain ⟨m, l, h, h0⟩ := ih
    unfold stallState at h ⊢
    rw [stall_schedule_succ, runTurns_append, h, run_stallRound _ (stall_ne_zero t)]
    refine ⟨_, _, rfl, ?_⟩
    rw [Vec5.get_set_ne _ _ (Ne.symm (stall_ne_zero t))]
    exact h0

/-- At the turn thread 0 is given in the middle of a round it is at `arbitrator.lock()` and
the arbitrator is owned by another thread. -/
theorem stallState_half (t : Nat) :
    (stallState (4 + 34 * t + 10)).pc.get 0 = L260 ∧
    ∃ b, (stallState (4 + 34 * t + 10)).arbitrator = some b := by
  obtain ⟨m, l, h, _⟩ := stallState_round t
  have hs : (List.range (4 + 34 * t + 10)).map stall =
      (List.range (4 + 34 * t)).map stall ++
        List.replicate 10 ⟨t % 4 + 1, Nat.succ_lt_succ (Nat.mod_lt _ (by decide))⟩ := by
    rw [List.range_add, List.map_append, List.map_map]
    congr 1
    rw [List.eq_replicate_iff]
    refine ⟨by simp, ?_⟩
    intro b hb
    simp only [List.mem_map, List.mem_range, Function.comp] at hb
    obtain ⟨j, hj, rfl⟩ := hb
    rw [stall_block t j (by omega), if_neg (by omega)]
  obtain ⟨s, hs', harb, hpc⟩ := run_stallRound_half _ (stall_ne_zero t) m l
  unfold stallState at h ⊢
  rw [hs, runTurns_append, h, hs']
  exact ⟨hpc, _, harb⟩

theorem stall_scheduling : IsScheduling philosophize init stallState stall :=
  isScheduling_runTurns philosophize init stall

/-- Along `stall` every thread is given a turn again and again. -/
theorem stall_turns (n : Nat) (a : Fin NUM_PHILOSOPHERS) : ∃ m, n ≤ m ∧ stall m = a := by
  by_cases ha : a = 0
  · subst ha
    refine ⟨4 + 34 * n + 10, by omega, ?_⟩
    rw [stall_block n 10 (by omega), if_pos rfl]
  · have hpos : 0 < a.val := Nat.pos_of_ne_zero (fun h => ha (Fin.ext h))
    have h5 : a.val < 5 := a.isLt
    refine ⟨4 + 34 * (4 * n + (a.val - 1)) + 0, by omega, ?_⟩
    rw [stall_block _ 0 (by omega), if_neg (by omega)]
    apply Fin.ext
    show (4 * n + (a.val - 1)) % 4 + 1 = a.val
    omega

/-- Whenever thread 0 is given a turn along `stall`, it is not at `meals_eaten[id]++`. -/
theorem stall_not_at_meal (n : Nat) (hw : stall n = 0) : (stallState n).pc.get 0 ≠ L276 := by
  by_cases h4 : n < 4
  · interval_cases n <;> decide
  · have hr : (n - 4) % 34 = 10 := by
      unfold stall at hw
      rw [if_neg h4] at hw
      by_contra hne
      rw [if_neg hne] at hw
      exact stall_ne_zero _ hw
    have hn : n = 4 + 34 * ((n - 4) / 34) + 10 := by omega
    rw [hn, (stallState_half _).1]
    decide

/-- Thread 0 never eats along `stall`. -/
theorem stall_no_meal (n : Nat) : (stallState n).meals_eaten.get 0 = 0 := by
  induction n with
  | zero => rfl
  | succ n ih =>
    rw [stall_scheduling.2 n]
    by_cases he : Enabled philosophize (stall n) (stallState n)
    · rw [meals_frame (schedStep_of_enabled he) 0 (by
        by_cases hw : stall n = 0
        · exact Or.inr (stall_not_at_meal n hw)
        · exact Or.inl hw)]
      exact ih
    · rw [schedStep_of_blocked he]; exact ih

end CorrectVersion

/-! ## The claims -/

/-- C1. Mutual exclusion per chopstick, in the three variants: in every reachable state at
most one thread is between its successful `lock`/`try_lock` of a chopstick and its own
`unlock` of it, that thread is the owner recorded by the mutex, and a thread whose next
statement is `chopsticks[left].unlock()` or `chopsticks[right].unlock()` owns that
chopstick. -/
theorem chopstick_mutual_exclusion
    (sD : State DeadlockVersion.PC) (sS : State StarvationVersion.PC)
    (sC : State CorrectVersion.PC)
    (hD : Reachable DeadlockVersion.philosophize DeadlockVersion.init sD)
    (hS : Reachable StarvationVersion.philosophize StarvationVersion.init sS)
    (hC : Reachable CorrectVersion.philosophize CorrectVersion.init sC) :
    (ChopstickExclusion DeadlockVersion.layout sD ∧
      ∀ a, (sD.pc.get a = DeadlockVersion.PC.L154 → sD.chopsticks.get (left a) = some a) ∧
        (sD.pc.get a = DeadlockVersion.PC.L155 → sD.chopsticks.get (right a) = some a)) ∧
    (ChopstickExclusion StarvationVersion.layout sS ∧
      ∀ a, (sS.pc.get a = StarvationVersion.PC.L189 → sS.chopsticks.get (right a) = some a) ∧
        (sS.pc.get a = StarvationVersion.PC.L236 → sS.chopsticks.get (left a) = some a) ∧
        (sS.pc.get a = StarvationVersion.PC.L237 → sS.chopsticks.get (right a) = some a)) ∧
    (ChopstickExclusion CorrectVersion.layout sC ∧
      ∀ a, (sC.pc.get a = CorrectVersion.PC.L288 → sC.chopsticks.get (left a) = some a) ∧
        (sC.pc.get a = CorrectVersion.PC.L289 → sC.chopsticks.get (right a) = some a)) := by
  have iD := DeadlockVersion.deadlock_inv_of_reachable hD
  have iS := StarvationVersion.starvation_inv_of_reachable hS
  have iC := CorrectVersion.correct_inv_of_reachable hC
  refine ⟨⟨iD.chopstickExclusion, fun a => ⟨?_, ?_⟩⟩, ⟨iS.chopstickExclusion, fun a => ⟨?_, ?_, ?_⟩⟩,
    ⟨iC.chopstickExclusion, fun a => ⟨?_, ?_⟩⟩⟩
  · intro hp
    exact (iD.chop (left a) a).mpr (by
      simp [Layout.holdsChop, DeadlockVersion.layout, DeadlockVersion.holdsLeft, hp])
  · intro hp
    exact (iD.chop (right a) a).mpr (by
      simp [Layout.holdsChop, DeadlockVersion.layout, DeadlockVersion.holdsRight, hp])
  · intro hp
    exact (iS.chop (right a) a).mpr (by
      simp [Layout.holdsChop, StarvationVersion.layout, StarvationVersion.holdsRight, hp])
  · intro hp
    exact (iS.chop (left a) a).mpr (by
      simp [Layout.holdsChop, StarvationVersion.layout, StarvationVersion.holdsLeft, hp])
  · intro hp
    exact (iS.chop (right a) a).mpr (by
      simp [Layout.holdsChop, StarvationVersion.layout, StarvationVersion.holdsRight, hp])
  · intro hp
    exact (iC.chop (left a) a).mpr (by
      simp [Layout.holdsChop, CorrectVersion.layout, CorrectVersion.holdsLeft, hp])
  · intro hp
    exact (iC.chop (right a) a).mpr (by
      simp [Layout.holdsChop, CorrectVersion.layout, CorrectVersion.holdsRight, hp])

/-- Witness of C1 at the states `deadlocked`, `staleRelease` and `twoEating`. -/
theorem chopstick_mutual_exclusion_witness :
    (Reachable DeadlockVersion.philosophize DeadlockVersion.init DeadlockVersion.deadlocked ∧
      Reachable StarvationVersion.philosophize StarvationVersion.init
        StarvationVersion.staleRelease ∧
      Reachable CorrectVersion.philosophize CorrectVersion.init CorrectVersion.twoEating) ∧
    ((ChopstickExclusion DeadlockVersion.layout DeadlockVersion.deadlocked ∧
      ∀ a, (DeadlockVersion.deadlocked.pc.get a = DeadlockVersion.PC.L154 →
          DeadlockVersion.deadlocked.chopsticks.get (left a) = some a) ∧
        (DeadlockVersion.deadlocked.pc.get a = DeadlockVersion.PC.L155 →
          DeadlockVersion.deadlocked.chopsticks.get (right a) = some a)) ∧
    (ChopstickExclusion StarvationVersion.layout StarvationVersion.staleRelease ∧
      ∀ a, (StarvationVersion.staleRelease.pc.get a = StarvationVersion.PC.L189 →
          StarvationVersion.staleRelease.chopsticks.get (right a) = some a) ∧
        (StarvationVersion.staleRelease.pc.get a = StarvationVersion.PC.L236 →
          StarvationVersion.staleRelease.chopsticks.get (left a) = some a) ∧
        (StarvationVersion.staleRelease.pc.get a = StarvationVersion.PC.L237 →
          StarvationVersion.staleRelease.chopsticks.get (right a) = some a)) ∧
    (ChopstickExclusion CorrectVersion.layout CorrectVersion.twoEating ∧
      ∀ a, (CorrectVersion.twoEating.pc.get a = CorrectVersion.PC.L288 →
          CorrectVersion.twoEating.chopsticks.get (left a) = some a) ∧
        (CorrectVersion.twoEating.pc.get a = CorrectVersion.PC.L289 →
          CorrectVersion.twoEating.chopsticks.get (right a) = some a))) :=
  ⟨⟨DeadlockVersion.reachable_deadlocked, StarvationVersion.reachable_staleRelease,
      CorrectVersion.reachable_twoEating⟩,
    chopstick_mutual_exclusion _ _ _ DeadlockVersion.reachable_deadlocked
      StarvationVersion.reachable_staleRelease CorrectVersion.reachable_twoEating⟩

/-- C2. `DeadlockVersion` can deadlock: the state `deadlocked` is reachable from the initial
state (all `THINKING`, all chopsticks free); in it every thread `i` is `HUNGRY`, owns
chopstick `i` (its left), and is at `chopsticks[right].lock()` (line 134) while its right
chopstick is owned by its neighbour; no thread has a step, so the only state reachable from
it is itself. -/
theorem deadlock_reachable :
    (∀ i, DeadlockVersion.init.states.get i = PhilosopherState.THINKING ∧
      DeadlockVersion.init.chopsticks.get i = none) ∧
    Reachable DeadlockVersion.philosophize DeadlockVersion.init DeadlockVersion.deadlocked ∧
    (∀ i, DeadlockVersion.deadlocked.chopsticks.get (left i) = some i ∧
      DeadlockVersion.deadlocked.pc.get i = DeadlockVersion.PC.L134 ∧
      DeadlockVersion.deadlocked.states.get i = PhilosopherState.HUNGRY ∧
      DeadlockVersion.deadlocked.chopsticks.get (right i) = some (right i)) ∧
    (∀ i, ¬ Enabled DeadlockVersion.philosophize i DeadlockVersion.deadlocked) ∧
    (∀ s', Reachable DeadlockVersion.philosophize DeadlockVersion.deadlocked s' →
      s' = DeadlockVersion.deadlocked) := by
  have hblocked : ∀ i, DeadlockVersion.philosophize i DeadlockVersion.deadlocked = none := by
    decide
  refine ⟨by decide, DeadlockVersion.reachable_deadlocked, by decide, ?_, ?_⟩
  · intro i
    simp [Enabled, hblocked i]
  · intro s' h
    induction h with
    | init => rfl
    | step i _ hs ih =>
      subst ih
      rw [hblocked i] at hs
      exact absurd hs (by simp)

/-- C3. `CorrectVersion` is deadlock-free: in every reachable state some thread has a step,
and a thread that owns the arbitrator and is at `chopsticks[left].lock()` (line 262) or
`chopsticks[right].lock()` (line 268) has a step. -/
theorem correct_deadlock_free (s : State CorrectVersion.PC)
    (h : Reachable CorrectVersion.philosophize CorrectVersion.init s) :
    (∃ i, Enabled CorrectVersion.philosophize i s) ∧
    ∀ a, s.arbitrator = some a →
      (s.pc.get a = CorrectVersion.PC.L262 ∨ s.pc.get a = CorrectVersion.PC.L268) →
      Enabled CorrectVersion.philosophize a s :=
  ⟨CorrectVersion.correct_exists_enabled s (CorrectVersion.correct_inv_of_reachable h),
    fun _ ha hp => CorrectVersion.enabled_at_chopstick (CorrectVersion.correct_inv_of_reachable h) ha hp⟩

/-- Witness of C3 at the state `twoEating`. -/
theorem correct_deadlock_free_witness :
    Reachable CorrectVersion.philosophize CorrectVersion.init CorrectVersion.twoEating ∧
    ((∃ i, Enabled CorrectVersion.philosophize i CorrectVersion.twoEating) ∧
    ∀ a, CorrectVersion.twoEating.arbitrator = some a →
      (CorrectVersion.twoEating.pc.get a = CorrectVersion.PC.L262 ∨
        CorrectVersion.twoEating.pc.get a = CorrectVersion.PC.L268) →
      Enabled CorrectVersion.philosophize a CorrectVersion.twoEating) :=
  ⟨CorrectVersion.reachable_twoEating,
    correct_deadlock_free _ CorrectVersion.reachable_twoEating⟩

/-- C4, as stated, fails: `twoEating` is reachable in `CorrectVersion` and has
`states[0] == EATING` and `states[1] == EATING`. -/
theorem eating_count_counterexample :
    ¬ ∀ s, Reachable CorrectVersion.philosophize CorrectVersion.init s → eatingCount s ≤ 1 := by
  intro h
  have h2 := h _ CorrectVersion.reachable_twoEating
  revert h2
  decide

/-- C4, amended. In every reachable state of `CorrectVersion` at most one thread has
`states[i] == EATING` without being at `states[id] = THINKING` (line 293), and such a thread
owns the arbitrator. -/
theorem eating_inside_arbitrator (s : State CorrectVersion.PC)
    (h : Reachable CorrectVersion.philosophize CorrectVersion.init s) :
    (CorrectVersion.eatingInside s).card ≤ 1 ∧
    ∀ i, i ∈ CorrectVersion.eatingInside s → s.arbitrator = some i := by
  have hi := CorrectVersion.correct_inv_of_reachable h
  refine ⟨Finset.card_le_one.mpr ?_, CorrectVersion.eatingInside_owner hi⟩
  intro a ha b hb
  have h1 := CorrectVersion.eatingInside_owner hi a ha
  have h2 := CorrectVersion.eatingInside_owner hi b hb
  rw [h1] at h2
  exact Option.some.inj h2

/-- Witness of the amended C4 at the state `twoEating`. -/
theorem eating_inside_arbitrator_witness :
    Reachable CorrectVersion.philosophize CorrectVersion.init CorrectVersion.twoEating ∧
    ((CorrectVersion.eatingInside CorrectVersion.twoEating).card ≤ 1 ∧
    ∀ i, i ∈ CorrectVersion.eatingInside CorrectVersion.twoEating →
      CorrectVersion.twoEating.arbitrator = some i) :=
  ⟨CorrectVersion.reachable_twoEating,
    eating_inside_arbitrator _ CorrectVersion.reachable_twoEating⟩

/-- C5. `StarvationVersion` never deadlocks: in every reachable state some thread has a
step. -/
theorem starvation_deadlock_free (s : State StarvationVersion.PC)
    (h : Reachable StarvationVersion.philosophize StarvationVersion.init s) :
    ∃ i, Enabled StarvationVersion.philosophize i s :=
  StarvationVersion.starvation_exists_enabled s (StarvationVersion.starvation_inv_of_reachable h)

/-- Witness of C5 at the state `staleRelease`. -/
theorem starvation_deadlock_free_witness :
    Reachable StarvationVersion.philosophize StarvationVersion.init
      StarvationVersion.staleRelease ∧
    ∃ i, Enabled StarvationVersion.philosophize i StarvationVersion.staleRelease :=
  ⟨StarvationVersion.reachable_staleRelease,
    starvation_deadlock_free _ StarvationVersion.reachable_staleRelease⟩

/-- C6 at the failing interleaving of `StarvationVersion`: `staleRelease` is reachable with
thread 0 at the closing brace (line 194) of the metadata block of its release of chopstick 1
(`unlock` at line 189); the step completes the release, and then
`last_chopstick_users[1] == 1` (not `0`, the releasing thread), while chopstick 1 is owned by
thread 1 and `current_chopstick_users[1] == -1`. -/
theorem release_round_trip_fails :
    Reachable StarvationVersion.philosophize StarvationVersion.init
      StarvationVersion.staleRelease ∧
    StarvationVersion.staleRelease.pc.get 0 = StarvationVersion.PC.L194 ∧
    ∃ s', StarvationVersion.philosophize 0 StarvationVersion.staleRelease = some s' ∧
      s'.pc.get 0 = StarvationVersion.PC.L195 ∧
      s'.display_mutex = none ∧
      s'.chopsticks.get (right 0) = some 1 ∧
      s'.current_chopstick_users.get (right 0) = -1 ∧
      s'.last_chopstick_users.get (right 0) = 1 :=
  ⟨StarvationVersion.reachable_staleRelease, by decide, _, rfl, by decide⟩

/-- C7, as stated, fails.  Along the schedule `stall` every thread is given a turn again and
again (so every thread that has an enabled step is eventually scheduled), but thread 0,
waiting at `arbitrator.lock()` (line 260), is only given a turn while another thread owns the
arbitrator, a plain mutex; it never executes `meals_eaten[id]++` and `meals_eaten[0]` stays
`0`. -/
theorem correct_starvation_counterexample :
    (IsScheduling CorrectVersion.philosophize CorrectVersion.init CorrectVersion.stallState
        CorrectVersion.stall ∧
      FairlyScheduled CorrectVersion.philosophize CorrectVersion.stallState
        CorrectVersion.stall ∧
      (∀ n a, ∃ m, n ≤ m ∧ CorrectVersion.stall m = a) ∧
      ∀ n, (CorrectVersion.stallState n).meals_eaten.get 0 = 0) ∧
    ¬ ∀ (σ : Nat → State CorrectVersion.PC) (who : Nat → Fin NUM_PHILOSOPHERS),
      IsScheduling CorrectVersion.philosophize CorrectVersion.init σ who →
      FairlyScheduled CorrectVersion.philosophize σ who →
      ∀ a n, ∃ m, n ≤ m ∧ who m = a ∧ (σ m).pc.get a = CorrectVersion.PC.L276 ∧
        (σ (m + 1)).meals_eaten.get a = intIncrement ((σ m).meals_eaten.get a) := by
  have hfair : FairlyScheduled CorrectVersion.philosophize CorrectVersion.stallState
      CorrectVersion.stall := fun n a _ => CorrectVersion.stall_turns n a
  refine ⟨⟨CorrectVersion.stall_scheduling, hfair, CorrectVersion.stall_turns,
    CorrectVersion.stall_no_meal⟩, fun h => ?_⟩
  obtain ⟨m, _, hw, hp, _⟩ := h _ _ CorrectVersion.stall_scheduling hfair 0 0
  exact CorrectVersion.stall_not_at_meal m hw hp

/-- C7, amended.  In every infinite execution of `CorrectVersion` in which every thread that
has an enabled step is eventually given a turn at a time when it has an enabled step, every
thread `a` executes `meals_eaten[id]++` (line 276) again after every time `n`. -/
theorem correct_no_starvation (σ : Nat → State CorrectVersion.PC)
    (who : Nat → Fin NUM_PHILOSOPHERS)
    (hexec : IsScheduling CorrectVersion.philosophize CorrectVersion.init σ who)
    (hfair : FairlyServed CorrectVersion.philosophize σ who)
    (a : Fin NUM_PHILOSOPHERS) (n : Nat) :
    ∃ m, n ≤ m ∧ who m = a ∧ (σ m).pc.get a = CorrectVersion.PC.L276 ∧
      (σ (m + 1)).meals_eaten.get a = intIncrement ((σ m).meals_eaten.get a) :=
  CorrectVersion.eventually_meal hexec hfair a n

/-- Witness of the amended C7 at the execution `contendState`, `contend`, in which the
threads wait at `arbitrator.lock()` and in every round a waiting thread is given a turn
while it is blocked; for thread 2 from time 0. -/
theorem correct_no_starvation_witness :
    (IsScheduling CorrectVersion.philosophize CorrectVersion.init CorrectVersion.contendState
        CorrectVersion.contend ∧
      FairlyServed CorrectVersion.philosophize CorrectVersion.contendState
        CorrectVersion.contend ∧
      ∀ t, ¬ Enabled CorrectVersion.philosophize (CorrectVersion.contend (20 + 34 * t + 10))
        (CorrectVersion.contendState (20 + 34 * t + 10))) ∧
    ∃ m, 0 ≤ m ∧ CorrectVersion.contend m = 2 ∧
      (CorrectVersion.contendState m).pc.get 2 = CorrectVersion.PC.L276 ∧
      (CorrectVersion.contendState (m + 1)).meals_eaten.get 2 =
        intIncrement ((CorrectVersion.contendState m).meals_eaten.get 2) :=
  ⟨⟨CorrectVersion.contend_scheduling, CorrectVersion.contend_served,
      CorrectVersion.contend_waits⟩,
    correct_no_starvation _ _ CorrectVersion.contend_scheduling CorrectVersion.contend_served
      2 0⟩

/-- C8, as stated, fails at `k = 2147483648`: `meals_eaten` is a `vector<int>`, so no
schedule runs to a state with `meals_eaten[1] >= 2147483648`. -/
theorem starvation_count_counterexample :
    ¬ ∃ (sched : List (Fin NUM_PHILOSOPHERS)) (s : State StarvationVersion.PC),
      runSchedule StarvationVersion.philosophize sched StarvationVersion.init = some s ∧
      2147483648 ≤ StarvationVersion.continueCount sched StarvationVersion.init ∧
      s.meals_eaten.get 0 = 0 ∧ (2147483648 : Int) ≤ s.meals_eaten.get 1 := by
  rintro ⟨sched, s, hrun, _, _, h⟩
  have hr := (StarvationVersion.meals_range_of_reachable
    (Reachable.of_runSchedule _ hrun) 1).2
  unfold INT_MAX at hr
  omega

/-- C8, amended.  `StarvationVersion` can starve thread 0 while it keeps retrying: for every
`k` up to `INT_MAX = 2147483647` the schedule `starveSchedule k` runs from the initial state
to a state `s` (so `s` is reachable); along it thread 0 executes `continue` at least `k`
times, each after a failed `try_lock`; in `s`, `meals_eaten[0] == 0` and
`meals_eaten[1] >= k`; and mutual exclusion on every chopstick holds in every state along
the execution. -/
theorem starvation_of_thread_zero (k : Nat) (hk : k ≤ 2147483647) :
    ∃ s, runSchedule StarvationVersion.philosophize (StarvationVersion.starveSchedule k)
        StarvationVersion.init = some s ∧
      Reachable StarvationVersion.philosophize StarvationVersion.init s ∧
      k ≤ StarvationVersion.continueCount (StarvationVersion.starveSchedule k)
        StarvationVersion.init ∧
      s.meals_eaten.get 0 = 0 ∧ (k : Int) ≤ s.meals_eaten.get 1 ∧
      ∀ l1 l2 s1, StarvationVersion.starveSchedule k = l1 ++ l2 →
        runSchedule StarvationVersion.philosophize l1 StarvationVersion.init = some s1 →
        ChopstickExclusion StarvationVersion.layout s1 := by
  obtain ⟨st0, l, h1, h2⟩ := StarvationVersion.run_starveSchedule k PhilosopherState.THINKING
    (Vec5.replicate 0) (Vec5.replicate (-1)) (by decide)
    (by
      show (0 : Int) + (k : Int) ≤ 2147483647
      omega)
  rw [← StarvationVersion.starvation_init_eq_betweenMeals] at h1 h2
  refine ⟨_, h1, Reachable.of_runSchedule _ h1, by rw [h2], rfl, ?_, ?_⟩
  · show (k : Int) ≤ 0 + (k : Int)
    omega
  · intro l1 l2 s1 _ hrun
    exact (StarvationVersion.starvation_inv_of_reachable
      (Reachable.of_runSchedule _ hrun)).chopstickExclusion

/-- Witness of the amended C8 for three rounds. -/
theorem starvation_of_thread_zero_witness :
    3 ≤ 2147483647 ∧
    ∃ s, runSchedule StarvationVersion.philosophize (StarvationVersion.starveSchedule 3)
        StarvationVersion.init = some s ∧
      Reachable StarvationVersion.philosophize StarvationVersion.init s ∧
      3 ≤ StarvationVersion.continueCount (StarvationVersion.starveSchedule 3)
        StarvationVersion.init ∧
      s.meals_eaten.get 0 = 0 ∧ ((3 : Nat) : Int) ≤ s.meals_eaten.get 1 ∧
      ∀ l1 l2 s1, StarvationVersion.starveSchedule 3 = l1 ++ l2 →
        runSchedule StarvationVersion.philosophize l1 StarvationVersion.init = some s1 →
        ChopstickExclusion StarvationVersion.layout s1 :=
  ⟨by decide, starvation_of_thread_zero 3 (by decide)⟩

/-- C9. No task can stop while holding a resource: in every reachable state of each variant, a
thread at the loop test `while (running)` (line 121, 171, 256), or at a `continue` of
`StarvationVersion` (lines 178, 196), owns no chopstick mutex, not the arbitrator and not
`display_mutex`. -/
theorem holds_nothing_at_loop_test
    (sD : State DeadlockVersion.PC) (sS : State StarvationVersion.PC)
    (sC : State CorrectVersion.PC)
    (hD : Reachable DeadlockVersion.philosophize DeadlockVersion.init sD)
    (hS : Reachable StarvationVersion.philosophize StarvationVersion.init sS)
    (hC : Reachable CorrectVersion.philosophize CorrectVersion.init sC) :
    (∀ a, sD.pc.get a = DeadlockVersion.PC.L121 → HoldsNothing sD a) ∧
    (∀ a, (sS.pc.get a = StarvationVersion.PC.L171 ∨ sS.pc.get a = StarvationVersion.PC.L178 ∨
        sS.pc.get a = StarvationVersion.PC.L196) → HoldsNothing sS a) ∧
    (∀ a, sC.pc.get a = CorrectVersion.PC.L256 → HoldsNothing sC a) := by
  refine ⟨fun a hp => ?_, fun a hp => ?_, fun a hp => ?_⟩
  · apply (DeadlockVersion.deadlock_inv_of_reachable hD).holdsNothing a <;>
      simp [DeadlockVersion.layout, hp, DeadlockVersion.holdsLeft, DeadlockVersion.holdsRight,
        DeadlockVersion.holdsDisplay]
  · apply (StarvationVersion.starvation_inv_of_reachable hS).holdsNothing a <;>
      rcases hp with hp | hp | hp <;>
      simp [StarvationVersion.layout, hp, StarvationVersion.holdsLeft,
        StarvationVersion.holdsRight, StarvationVersion.holdsDisplay]
  · apply (CorrectVersion.correct_inv_of_reachable hC).holdsNothing a <;>
      simp [CorrectVersion.layout, hp, CorrectVersion.holdsLeft, CorrectVersion.holdsRight,
        CorrectVersion.holdsDisplay, CorrectVersion.holdsArbitrator]

/-- Witness of C9 at the states `deadlocked`, `staleRelease` and `twoEating`. -/
theorem holds_nothing_at_loop_test_witness :
    (Reachable DeadlockVersion.philosophize DeadlockVersion.init DeadlockVersion.deadlocked ∧
      Reachable StarvationVersion.philosophize StarvationVersion.init
        StarvationVersion.staleRelease ∧
      Reachable CorrectVersion.philosophize CorrectVersion.init CorrectVersion.twoEating) ∧
    ((∀ a, DeadlockVersion.deadlocked.pc.get a = DeadlockVersion.PC.L121 →
        HoldsNothing DeadlockVersion.deadlocked a) ∧
    (∀ a, (StarvationVersion.staleRelease.pc.get a = StarvationVersion.PC.L171 ∨
        StarvationVersion.staleRelease.pc.get a = StarvationVersion.PC.L178 ∨
        StarvationVersion.staleRelease.pc.get a = StarvationVersion.PC.L196) →
        HoldsNothing StarvationVersion.staleRelease a) ∧
    (∀ a, CorrectVersion.twoEating.pc.get a = CorrectVersion.PC.L256 →
        HoldsNothing CorrectVersion.twoEating a)) :=
  ⟨⟨DeadlockVersion.reachable_deadlocked, StarvationVersion.reachable_staleRelease,
      CorrectVersion.reachable_twoEating⟩,
    holds_nothing_at_loop_test _ _ _ DeadlockVersion.reachable_deadlocked
      StarvationVersion.reachable_staleRelease CorrectVersion.reachable_twoEating⟩

/-- C10. Holder-metadata invariant, in the three variants: in every reachable state, for every
chopstick `r`, `current_chopstick_users[r]` is `-1` or the id `a` of a thread with
`states[a]` `EATING` or `HUNGRY` and `a == r` or `(a + 1) % 5 == r`. -/
theorem holder_metadata_invariant
    (sD : State DeadlockVersion.PC) (sS : State StarvationVersion.PC)
    (sC : State CorrectVersion.PC)
    (hD : Reachable DeadlockVersion.philosophize DeadlockVersion.init sD)
    (hS : Reachable StarvationVersion.philosophize StarvationVersion.init sS)
    (hC : Reachable CorrectVersion.philosophize CorrectVersion.init sC) :
    (∀ r, HolderMetadataOk sD r) ∧ (∀ r, HolderMetadataOk sS r) ∧
    (∀ r, HolderMetadataOk sC r) :=
  ⟨(DeadlockVersion.deadlock_inv_of_reachable hD).holderMetadataOk DeadlockVersion.deadlock_cur_table,
    (StarvationVersion.starvation_inv_of_reachable hS).holderMetadataOk StarvationVersion.starvation_cur_table,
    (CorrectVersion.correct_inv_of_reachable hC).holderMetadataOk CorrectVersion.correct_cur_table⟩

/-- Witness of C10 at the states `deadlocked`, `staleRelease` and `twoEating`. -/
theorem holder_metadata_invariant_witness :
    (Reachable DeadlockVersion.philosophize DeadlockVersion.init DeadlockVersion.deadlocked ∧
      Reachable StarvationVersion.philosophize StarvationVersion.init
        StarvationVersion.staleRelease ∧
      Reachable CorrectVersion.philosophize CorrectVersion.init CorrectVersion.twoEating) ∧
    ((∀ r, HolderMetadataOk DeadlockVersion.deadlocked r) ∧
    (∀ r, HolderMetadataOk StarvationVersion.staleRelease r) ∧
    (∀ r, HolderMetadataOk CorrectVersion.twoEating r)) :=
  ⟨⟨DeadlockVersion.reachable_deadlocked, StarvationVersion.reachable_staleRelease,
      CorrectVersion.reachable_twoEating⟩,
    holder_metadata_invariant _ _ _ DeadlockVersion.reachable_deadlocked
      StarvationVersion.reachable_staleRelease CorrectVersion.reachable_twoEating⟩

end Filozofowie
